import Mathlib

/-!
Verification of the cashflow-app CSV ingestion pipeline.

The development shallowly embeds the TypeScript sources
`src/app/lib/dedupe.ts`, `src/app/api/upload-csv/route.ts` and
`src/app/upload/page.tsx` into Lean.  JavaScript strings are modelled as
Lean `String`s; platform builtins used by the sources (`String.prototype.trim`,
`Number`, `Date.UTC`, `crypto.subtle.digest`) are modelled explicitly below,
each with a comment naming the builtin it renders.
-/

set_option maxRecDepth 40000

/-! ## JavaScript string primitives -/

/-- Characters treated as whitespace by JavaScript string `trim` and by the
regexp class `\s` (ASCII whitespace plus NBSP; the exotic Unicode space
separators are not reachable from this pipeline's inputs). -/
def isJsWs (c : Char) : Bool :=
  c = ' ' || c = '\t' || c = '\n' || (9 ≤ c.toNat && c.toNat ≤ 13) || c.toNat = 160 ||
    c.toNat = 0xFEFF

/-- Model of `String.prototype.trim`. -/
def jsTrim (s : String) : String :=
  ⟨(s.data.dropWhile isJsWs).rdropWhile isJsWs⟩

/-- ASCII lowering of one character, as done by `toLowerCase` on the
ASCII range used by this pipeline. -/
def jsLowerChar (c : Char) : Char :=
  if 'A' ≤ c ∧ c ≤ 'Z' then Char.ofNat (c.toNat + 32) else c

/-- Model of `String.prototype.toLowerCase` (ASCII range). -/
def jsToLower (s : String) : String :=
  ⟨s.data.map jsLowerChar⟩

/-! ## Dedup engine — `src/app/lib/dedupe.ts` -/

/-- The `institution` literal union `"boa" | "chase"`. -/
inductive Institution where
  | boa
  | chase
deriving DecidableEq, Repr

/-- The string a given institution renders to in template literals / joins. -/
def Institution.str : Institution → String
  | .boa => "boa"
  | .chase => "chase"

/-- The `DedupableTransaction` type of `dedupe.ts` (its `source` field is the
singleton literal type `"csv"` and is rendered as the constant string `"csv"`
wherever the code reads it, so it is not carried as data). -/
structure DedupableTransaction where
  userId : String
  accountId : String
  institution : Institution
  source_ref : Option String
  fingerprint : String
deriving DecidableEq, Repr

/-- `buildSourceRefKey` of `dedupe.ts`: `tx.source_ref?.trim()`; a missing or
all-whitespace `source_ref` yields `null`, otherwise the five fields joined
with `"|"`. -/
def buildSourceRefKey (tx : DedupableTransaction) : Option String :=
  match tx.source_ref with
  | none => none
  | some r =>
      let sourceRef := jsTrim r
      if sourceRef = "" then none
      else some (String.intercalate "|"
        [tx.userId, tx.accountId, tx.institution.str, "csv", sourceRef])

/-- `buildFingerprintKey` of `dedupe.ts`. -/
def buildFingerprintKey (tx : DedupableTransaction) : String :=
  String.intercalate "|" [tx.userId, tx.accountId, tx.fingerprint]

/-- The mutable state of `dedupeTransactions`' scan: the two `Set<string>`s
(a JS `Set` is used only through `add`/`has`, so a list with membership is a
faithful rendering) and the two output arrays. -/
structure DedupState where
  seenSourceRef : List String
  seenFingerprint : List String
  imported : List DedupableTransaction
  skippedDuplicates : List DedupableTransaction
deriving Repr

/-- Seeding loop of `dedupeTransactions`: register every persisted
transaction's source-ref key (when present) and fingerprint key. -/
def seedFromPersisted (persisted : List DedupableTransaction) : DedupState :=
  { seenSourceRef := persisted.filterMap buildSourceRefKey
    seenFingerprint := persisted.map buildFingerprintKey
    imported := []
    skippedDuplicates := [] }

/-- One iteration of the main loop of `dedupeTransactions` over an incoming
transaction. -/
def dedupStep (s : DedupState) (tx : DedupableTransaction) : DedupState :=
  let sourceRefKey := buildSourceRefKey tx
  let fingerprintKey := buildFingerprintKey tx
  let isDuplicateBySourceRef :=
    match sourceRefKey with
    | some k => s.seenSourceRef.contains k
    | none => false
  let isDuplicateByFingerprint := s.seenFingerprint.contains fingerprintKey
  if isDuplicateBySourceRef || isDuplicateByFingerprint then
    { s with skippedDuplicates := s.skippedDuplicates ++ [tx] }
  else
    { s with
      imported := s.imported ++ [tx]
      seenSourceRef :=
        match sourceRefKey with
        | some k => s.seenSourceRef ++ [k]
        | none => s.seenSourceRef
      seenFingerprint := s.seenFingerprint ++ [fingerprintKey] }

/-- The main loop of `dedupeTransactions`, walking the incoming batch in
original order. -/
def dedupRun (s : DedupState) (incoming : List DedupableTransaction) : DedupState :=
  incoming.foldl dedupStep s

/-- The `DedupResult` shape of `dedupe.ts`. -/
structure DedupResult where
  imported : List DedupableTransaction
  skippedDuplicates : List DedupableTransaction
  imported_count : Nat
  skipped_duplicates_count : Nat
deriving DecidableEq, Repr

/-- `dedupeTransactions` of `dedupe.ts`. -/
def dedupeTransactions (incoming persisted : List DedupableTransaction) :
    DedupResult :=
  let s := dedupRun (seedFromPersisted persisted) incoming
  { imported := s.imported
    skippedDuplicates := s.skippedDuplicates
    imported_count := s.imported.length
    skipped_duplicates_count := s.skippedDuplicates.length }

/-- Two transactions collide when they agree on the fingerprint key or have
the same applicable source-ref key — the condition under which the dedup
engine can see one as a duplicate of the other. -/
def Collides (t u : DedupableTransaction) : Prop :=
  buildFingerprintKey t = buildFingerprintKey u ∨
    (∃ k, buildSourceRefKey t = some k ∧ buildSourceRefKey u = some k)

instance (t u : DedupableTransaction) : Decidable (Collides t u) :=
  decidable_of_iff
    (buildFingerprintKey t = buildFingerprintKey u ∨
      ((buildSourceRefKey t).isSome = true ∧
        buildSourceRefKey t = buildSourceRefKey u)) <| by
    constructor
    · rintro (h | ⟨h, h'⟩)
      · exact Or.inl h
      · rcases Option.isSome_iff_exists.1 h with ⟨k, hk⟩
        exact Or.inr ⟨k, hk, by rw [← h', hk]⟩
    · rintro (h | ⟨k, hk, hk'⟩)
      · exact Or.inl h
      · exact Or.inr ⟨by simp [hk], hk.trans hk'.symm⟩

/-- The condition read off by the loop of `dedupeTransactions` when it
classifies `tx` as a duplicate at state `s`. -/
def DupAgainst (s : DedupState) (tx : DedupableTransaction) : Prop :=
  (∃ k, buildSourceRefKey tx = some k ∧ k ∈ s.seenSourceRef) ∨
    buildFingerprintKey tx ∈ s.seenFingerprint

/-- Every imported transaction has its keys registered in the seen sets. -/
def SeenInv (s : DedupState) : Prop :=
  ∀ tx ∈ s.imported, buildFingerprintKey tx ∈ s.seenFingerprint ∧
    ∀ k, buildSourceRefKey tx = some k → k ∈ s.seenSourceRef

/-! ## Strict date parsing — `parseMDYDateToISO` of `src/app/upload/page.tsx` -/

/-- Numeric value of a run of decimal digits, as computed by `Number()` on a
digit-only capture group. -/
def digitsToNat (s : String) : Nat :=
  s.data.foldl (fun acc c => 10 * acc + (c.toNat - 48)) 0

/-- Split a character list at every occurrence of `sep`, keeping empty
pieces (the semantics of JavaScript `String.prototype.split` with a
single-character separator). -/
def splitOnCharAux (sep : Char) : List Char → List Char → List String
  | [], acc => [⟨acc.reverse⟩]
  | c :: rest, acc =>
      if c = sep then ⟨acc.reverse⟩ :: splitOnCharAux sep rest []
      else splitOnCharAux sep rest (c :: acc)

/-- See `splitOnCharAux`. -/
def splitOnChar (sep : Char) (s : String) : List String :=
  splitOnCharAux sep s.data []

/-- The Gregorian leap-year rule used by the ECMAScript calendar. -/
def isLeapYear (y : Int) : Bool :=
  y % 4 = 0 && (y % 100 ≠ 0 || y % 400 = 0)

/-- Length of month `m` (1-based) of year `y` in the proleptic Gregorian
calendar used by ECMAScript `Date`. -/
def daysInMonth (y : Int) (m : Nat) : Nat :=
  if m = 2 then (if isLeapYear y then 29 else 28)
  else if m = 4 ∨ m = 6 ∨ m = 9 ∨ m = 11 then 30 else 31

/-- Model of the two-digit-year rule of `Date.UTC`: year arguments 0–99 are
interpreted as 1900–1999. -/
def jsUTCYear (y : Nat) : Int :=
  if y ≤ 99 then 1900 + (y : Int) else (y : Int)

/-- Model of the platform builtin composite
`new Date(Date.UTC(y, m - 1, d))` followed by
`getUTCFullYear`/`getUTCMonth`/`getUTCDate`, for `1 ≤ m ≤ 12` and
`1 ≤ d ≤ 31`: a day count exceeding the month's length rolls over into the
following month (at most one month, since `d ≤ 31 < 28 + 28`). -/
def jsUTCNormalize (y : Int) (m d : Nat) : Int × Nat × Nat :=
  if d ≤ daysInMonth y m then (y, m, d)
  else if m = 12 then (y + 1, 1, d - daysInMonth y m)
  else (y, m + 1, d - daysInMonth y m)

/-- Zero-padded two-digit rendering used by `toISOString` for months/days. -/
def pad2 (n : Nat) : String :=
  if n < 10 then "0" ++ toString n else toString n

/-- Zero-padded four-digit rendering used by `toISOString` for years in
0–9999. -/
def pad4 (n : Nat) : String :=
  if n < 10 then "000" ++ toString n
  else if n < 100 then "00" ++ toString n
  else if n < 1000 then "0" ++ toString n
  else toString n

/-- The regexp match `^(\d{1,2})\/(\d{1,2})\/(\d{4})$` of `parseMDYDateToISO`
together with `Number()` on the three capture groups. -/
def parseMDYParts (s : String) : Option (Nat × Nat × Nat) :=
  match splitOnChar '/' (jsTrim s) with
  | [ms, ds, ys] =>
      if 1 ≤ ms.length ∧ ms.length ≤ 2 ∧ ms.data.all Char.isDigit ∧
          1 ≤ ds.length ∧ ds.length ≤ 2 ∧ ds.data.all Char.isDigit ∧
          ys.length = 4 ∧ ys.data.all Char.isDigit then
        some (digitsToNat ms, digitsToNat ds, digitsToNat ys)
      else none
  | _ => none

/-- `parseMDYDateToISO` of `page.tsx`: strict `M/D/YYYY` parse, bounds check,
`Date.UTC` reconstruction with exact round-trip verification, and
`toISOString().slice(0, 10)` rendering. -/
def parseMDYDateToISO (value : String) : Option String :=
  match parseMDYParts value with
  | none => none
  | some (month, day, year) =>
      if month < 1 ∨ 12 < month ∨ day < 1 ∨ 31 < day then none
      else if jsUTCNormalize (jsUTCYear year) month day = ((year : Int), month, day) then
        some (pad4 year ++ "-" ++ pad2 month ++ "-" ++ pad2 day)
      else none

/-- Claim-side reading of "string of the form `M/D/YYYY`" with month value
`m`, day value `d` and year value `y`: after trimming, the string splits at
`/` into a 1–2 digit month group, a 1–2 digit day group and an exactly
4-digit year group. -/
def MDYFormat (s : String) (m d y : Nat) : Prop :=
  ∃ ms ds ys : String,
    splitOnChar '/' (jsTrim s) = [ms, ds, ys] ∧
    1 ≤ ms.length ∧ ms.length ≤ 2 ∧ ms.data.all Char.isDigit ∧ digitsToNat ms = m ∧
    1 ≤ ds.length ∧ ds.length ≤ 2 ∧ ds.data.all Char.isDigit ∧ digitsToNat ds = d ∧
    ys.length = 4 ∧ ys.data.all Char.isDigit ∧ digitsToNat ys = y

/-- Claim-side reading of "denotes a real calendar date" (proleptic
Gregorian). -/
def RealCalendarDate (y : Int) (m d : Nat) : Prop :=
  1 ≤ m ∧ m ≤ 12 ∧ 1 ≤ d ∧ d ≤ daysInMonth y m

/-! ## Amount parsing — `parseAmount` of `src/app/upload/page.tsx`

`Number()` is a platform builtin; `jsNumberFinite` models it on the string
forms of the ECMAScript `StringNumericLiteral` grammar, returning `none`
whenever the mathematical value is `NaN` or infinite (both of which fail the
source's `Number.isFinite` gate).  Values are exact rationals: the float64
rounding of JS numbers is not modelled, and the small decimal amounts this
pipeline handles are exactly representable. -/

/-- Numeric value of a run of decimal digits. -/
def digitsVal (ds : List Char) : Nat :=
  ds.foldl (fun a c => 10 * a + (c.toNat - 48)) 0

/-- Hexadecimal digit test for `0x` literals. -/
def isHexDigit (c : Char) : Bool :=
  c.isDigit || ('a' ≤ c && c ≤ 'f') || ('A' ≤ c && c ≤ 'F')

/-- Value of one hexadecimal digit. -/
def hexDigitVal (c : Char) : Nat :=
  if c.isDigit then c.toNat - 48
  else if 'a' ≤ c && c ≤ 'f' then c.toNat - 87
  else c.toNat - 55

/-- Value of a run of hexadecimal digits. -/
def hexVal (ds : List Char) : Nat :=
  ds.foldl (fun a c => 16 * a + hexDigitVal c) 0

/-- Octal digit test for `0o` literals. -/
def isOctDigit (c : Char) : Bool := '0' ≤ c && c ≤ '7'

/-- Value of a run of octal digits. -/
def octVal (ds : List Char) : Nat :=
  ds.foldl (fun a c => 8 * a + (c.toNat - 48)) 0

/-- Binary digit test for `0b` literals. -/
def isBinDigit (c : Char) : Bool := c = '0' || c = '1'

/-- Value of a run of binary digits. -/
def binVal (ds : List Char) : Nat :=
  ds.foldl (fun a c => 2 * a + (c.toNat - 48)) 0

/-- The mathematical value `mant × 10 ^ shift` of a decimal literal with
integer mantissa `mant` and net decimal shift `shift` (exponent minus the
number of fraction digits), built with a single `Rat.divInt` so that it
evaluates by kernel reduction. -/
def decMV (mant : Nat) (shift : Int) : ℚ :=
  if 0 ≤ shift then Rat.divInt ((mant * 10 ^ shift.toNat : Nat) : Int) 1
  else Rat.divInt (mant : Int) ((10 ^ (-shift).toNat : Nat) : Int)

/-- Signed decimal digits of an `ExponentPart` (full-string). -/
def parseSignedDigits (cs : List Char) : Option Int :=
  match cs with
  | '+' :: r => if r ≠ [] ∧ r.all Char.isDigit then some (digitsVal r : Int) else none
  | '-' :: r => if r ≠ [] ∧ r.all Char.isDigit then some (-(digitsVal r : Int)) else none
  | r => if r ≠ [] ∧ r.all Char.isDigit then some (digitsVal r : Int) else none

/-- An optional `ExponentPart` occupying the rest of the string; `some 0`
when absent. -/
def parseExpPart (cs : List Char) : Option Int :=
  match cs with
  | [] => some 0
  | 'e' :: r => parseSignedDigits r
  | 'E' :: r => parseSignedDigits r
  | _ => none

/-- `StrUnsignedDecimalLiteral` (full-string): `Digits [. Digits] [Exp]` or
`. Digits [Exp]`. -/
def jsUnsignedDecimal (cs : List Char) : Option ℚ :=
  let ip := cs.takeWhile Char.isDigit
  let rest1 := cs.dropWhile Char.isDigit
  match rest1 with
  | '.' :: rest2 =>
      let fp := rest2.takeWhile Char.isDigit
      let rest3 := rest2.dropWhile Char.isDigit
      if ip = [] ∧ fp = [] then none
      else
        match parseExpPart rest3 with
        | none => none
        | some e =>
            some (decMV (digitsVal ip * 10 ^ fp.length + digitsVal fp)
              (e - (fp.length : Int)))
  | _ =>
      if ip = [] then none
      else
        match parseExpPart rest1 with
        | none => none
        | some e => some (decMV (digitsVal ip) e)

/-- `NonDecimalIntegerLiteral` (`0x`/`0o`/`0b`, full-string, no sign). -/
def jsNonDecimalInt (cs : List Char) : Option ℚ :=
  match cs with
  | '0' :: b :: r =>
      if b = 'x' ∨ b = 'X' then
        if r ≠ [] ∧ r.all isHexDigit then some (Rat.divInt (hexVal r : Int) 1) else none
      else if b = 'o' ∨ b = 'O' then
        if r ≠ [] ∧ r.all isOctDigit then some (Rat.divInt (octVal r : Int) 1) else none
      else if b = 'b' ∨ b = 'B' then
        if r ≠ [] ∧ r.all isBinDigit then some (Rat.divInt (binVal r : Int) 1) else none
      else none
  | _ => none

/-- `StrNumericLiteral` (full-string): signed decimal, non-decimal integer,
or (rejected here) a signed `Infinity`. -/
def jsStrNumericValue (cs : List Char) : Option ℚ :=
  match cs with
  | '+' :: r => if r = "Infinity".data then none else jsUnsignedDecimal r
  | '-' :: r =>
      if r = "Infinity".data then none
      else (jsUnsignedDecimal r).map (fun q => -q)
  | _ =>
      if cs = "Infinity".data then none
      else
        match jsNonDecimalInt cs with
        | some q => some q
        | none => jsUnsignedDecimal cs

/-- Model of the platform builtin `Number(string)`, restricted to finite
results (`none` = `NaN` or an infinity, both rejected by the source's
`Number.isFinite` check). -/
def jsNumberFinite (s : String) : Option ℚ :=
  let t := jsTrim s
  if t = "" then some 0 else jsStrNumericValue t.data

/-- The test `/^\(.*\)$/.test(trimmed)` of `parseAmount` (`.` does not match
line terminators). -/
def parenWrapped (s : String) : Bool :=
  match s.data with
  | '(' :: rest =>
      rest.getLast? == some ')' &&
        rest.dropLast.all (fun c =>
          !(c = '\n' || c = '\r' || c.toNat = 0x2028 || c.toNat = 0x2029))
  | _ => false

/-- `trimmed.replace(/[,$]/g, "")`. -/
def removeCommaDollar (s : String) : String :=
  ⟨s.data.filter (fun c => !(c = ',' || c = '$'))⟩

/-- `.replace(/^\(/, "")`. -/
def stripLeadParen (s : String) : String :=
  match s.data with
  | '(' :: r => ⟨r⟩
  | _ => s

/-- `.replace(/\)$/, "")`. -/
def stripTrailParen (s : String) : String :=
  if s.data.getLast? = some ')' then ⟨s.data.dropLast⟩ else s

/-- `parseAmount` of `page.tsx`. -/
def parseAmount (value : String) : Option ℚ :=
  let trimmed := jsTrim value
  if trimmed = "" then none
  else
    let isParenNegative := parenWrapped trimmed
    let sanitized := stripTrailParen (stripLeadParen (removeCommaDollar trimmed))
    match jsNumberFinite sanitized with
    | none => none
    | some parsed => some (if isParenNegative then -parsed else parsed)

/-! ## Row canonicalization — `handleNormalize` of `src/app/upload/page.tsx` -/

/-- The `accountType` literal union. -/
inductive AccountType where
  | checking
  | savings
  | credit_card
deriving DecidableEq, Repr

/-- The string a given account type renders to in template literals. -/
def AccountType.str : AccountType → String
  | .checking => "checking"
  | .savings => "savings"
  | .credit_card => "credit_card"

/-- `normalizeHeaderName` of `page.tsx`: `header.trim().toLowerCase()`. -/
def normalizeHeaderName (header : String) : String :=
  jsToLower (jsTrim header)

/-- One pass of `.replace(/\s+/g, " ")`: each maximal whitespace run becomes
a single space.  `prevWs` records whether the previous character belonged to
a run already replaced. -/
def collapseWsAux (prevWs : Bool) : List Char → List Char
  | [] => []
  | c :: rest =>
      if isJsWs c then
        if prevWs then collapseWsAux true rest
        else ' ' :: collapseWsAux true rest
      else c :: collapseWsAux false rest

/-- `normalizeDescription` of `page.tsx`:
`value.trim().toLowerCase().replace(/\s+/g, " ")`. -/
def normalizeDescription (value : String) : String :=
  ⟨collapseWsAux false (jsToLower (jsTrim value)).data⟩

/-- Match a literal character sequence at the head, returning the rest. -/
def matchLit : List Char → List Char → Option (List Char)
  | [], rest => some rest
  | _, [] => none
  | p :: ps, c :: cs => if c = p then matchLit ps cs else none

/-- Does `beginning\s+balance` match at the head of the (lowered) list? -/
def bbAt (l : List Char) : Bool :=
  match matchLit "beginning".data l with
  | none => false
  | some r =>
      let r2 := r.dropWhile isJsWs
      if r2.length < r.length then (matchLit "balance".data r2).isSome else false

/-- Search `beginning\s+balance` anywhere in the list. -/
def bbSearch : List Char → Bool
  | [] => false
  | c :: rest => bbAt (c :: rest) || bbSearch rest

/-- `isBeginningBalanceRow` of `page.tsx`:
`/beginning\s+balance/i.test(description.trim())` (the `/i` flag is rendered
by lowering the haystack, which leaves whitespace untouched). -/
def isBeginningBalanceRow (description : String) : Bool :=
  bbSearch (jsToLower (jsTrim description)).data

/-- Least `k ≤ 100` with `den ∣ 10^k`: the decimal-shift needed to print a
rational exactly. -/
def findShift (den : Nat) : Option Nat :=
  (List.range 101).find? (fun k => 10 ^ k % den = 0)

/-- Left-pad a digit string with zeros to width `k`. -/
def padZeros (s : String) (k : Nat) : String :=
  ⟨List.replicate (k - s.length) '0'⟩ ++ s

/-- Model of the platform builtin `String(number)` on the finite decimal
rationals this pipeline produces: the exact shortest decimal expansion
(matching the shortest-round-trip rendering of JS for decimally-representable
doubles).  Exponent notation (|x| ≥ 1e21 or < 1e-6) and non-decimal
denominators fall outside this pipeline's values; the latter render as a
placeholder. -/
def jsNumToString (q : ℚ) : String :=
  match findShift q.den with
  | none => "?"
  | some k =>
      let scaled := q.num.natAbs * (10 ^ k / q.den)
      let ip := scaled / 10 ^ k
      let fp := scaled % 10 ^ k
      (if q.num < 0 then "-" else "") ++ toString ip ++
        (if fp = 0 then "" else "." ++ padZeros (toString fp) k)

/-- The hash-input expression of `handleNormalize`:
`userId + accountId + postedDateISO + String(amountNumber) +
normalizedDescription` — plain string concatenation with no separator. -/
def fingerprintInput (userId accountId postedDateISO : String) (amountNumber : ℚ)
    (normalizedDescription : String) : String :=
  userId ++ accountId ++ postedDateISO ++ jsNumToString amountNumber ++
    normalizedDescription

/-- The `CanonicalTransaction` type of `page.tsx` (its `source` field is the
literal `"csv"` and carries no information; the optional fields are explicit
`Option`s). -/
structure CanonicalTransaction where
  institution : Institution
  accountType : AccountType
  postedDateISO : String
  amountNumber : ℚ
  description : String
  bankCategory : Option String
  source_ref : Option String
  fingerprint : String
deriving DecidableEq, Repr

/-- JavaScript `Array.prototype.indexOf` on a string array (`-1` when
absent). -/
def jsIndexOf (l : List String) (x : String) : Int :=
  match l.findIdx? (· == x) with
  | some i => (i : Int)
  | none => -1

/-- `row[i] ?? ""` with a possibly negative index. -/
def rowGet (row : List String) (i : Int) : String :=
  if i < 0 then "" else row.getD i.toNat ""

/-- The `sourceRefIndex` computation of `handleNormalize`:
`institution === "boa" && accountType === "credit_card" ?
preview.headers.findIndex(h => normalizeHeaderName(h) === "reference number")
: -1`. -/
def sourceRefIndexOf (institution : Institution) (accountType : AccountType)
    (headers : List String) : Int :=
  if institution = .boa ∧ accountType = .credit_card then
    match headers.findIdx? (fun h => normalizeHeaderName h == "reference number") with
    | some i => (i : Int)
    | none => -1
  else -1

/-- The body of `handleNormalize`'s `for (const row of preview.rows)` loop
for one row: `none` means the row was skipped (counted invalid), `some tx`
means `tx` was pushed onto `canonical`.  `hash` is the `sha256Hex` platform
collaborator. -/
def normalizeRow (hash : String → String) (institution : Institution)
    (accountType : AccountType) (userId accountId : String)
    (dateIndex amountIndex descriptionIndex categoryIndex sourceRefIndex : Int)
    (row : List String) : Option CanonicalTransaction :=
  let amountRaw := rowGet row amountIndex
  let descriptionRaw := jsTrim (rowGet row descriptionIndex)
  if jsTrim amountRaw = "" || isBeginningBalanceRow descriptionRaw then none
  else
    match parseMDYDateToISO (rowGet row dateIndex), parseAmount amountRaw with
    | some postedDateISO, some amountNumber =>
        if descriptionRaw = "" then none
        else
          let normalizedDescription := normalizeDescription descriptionRaw
          let fingerprint := hash (fingerprintInput userId accountId postedDateISO
            amountNumber normalizedDescription)
          let bankCategoryValue :=
            if 0 ≤ categoryIndex then jsTrim (rowGet row categoryIndex) else ""
          let sourceRefValue :=
            if 0 ≤ sourceRefIndex then jsTrim (rowGet row sourceRefIndex) else ""
          some { institution, accountType, postedDateISO, amountNumber,
                 description := descriptionRaw,
                 bankCategory := if bankCategoryValue = "" then none
                   else some bankCategoryValue,
                 source_ref := if sourceRefValue = "" then none
                   else some sourceRefValue,
                 fingerprint }
    | _, _ => none

/-- The two accumulators of `handleNormalize`'s loop: the `canonical` array
and `skippedInvalidCount` (the reported `normalized_count` is
`canonical.length`, and the rendered preview is `canonical.slice(0, 10)`). -/
structure NormalizeOutcome where
  canonical : List CanonicalTransaction
  skipped_invalid_count : Nat
deriving DecidableEq, Repr

instance {ε α : Type} [DecidableEq ε] [DecidableEq α] : DecidableEq (Except ε α) :=
  fun x y =>
    match x, y with
    | .ok a, .ok b =>
        if h : a = b then isTrue (by rw [h]) else isFalse (by simp [h])
    | .error e, .error f =>
        if h : e = f then isTrue (by rw [h]) else isFalse (by simp [h])
    | .ok _, .error _ => isFalse (by simp)
    | .error _, .ok _ => isFalse (by simp)

/-- One loop iteration of `handleNormalize` acting on the accumulators. -/
def normalizeFoldStep (hash : String → String) (institution : Institution)
    (accountType : AccountType) (userId accountId : String)
    (dateIndex amountIndex descriptionIndex categoryIndex sourceRefIndex : Int)
    (acc : NormalizeOutcome) (row : List String) : NormalizeOutcome :=
  match normalizeRow hash institution accountType userId accountId dateIndex
      amountIndex descriptionIndex categoryIndex sourceRefIndex row with
  | none => { acc with skipped_invalid_count := acc.skipped_invalid_count + 1 }
  | some tx => { acc with canonical := acc.canonical ++ [tx] }

/-- `handleNormalize` of `page.tsx` (its guard `!preview || !canNormalize`
returns before this body; `userId = "mvp-user"` and
`accountId = institution-accountType` are fixed inside it). -/
def handleNormalize (hash : String → String) (institution : Institution)
    (accountType : AccountType) (headers : List String)
    (mappingDate mappingAmount mappingDescription mappingBankCategory : String)
    (rows : List (List String)) : Except String NormalizeOutcome :=
  let dateIndex := jsIndexOf headers mappingDate
  let amountIndex := jsIndexOf headers mappingAmount
  let descriptionIndex := jsIndexOf headers mappingDescription
  let categoryIndex :=
    if mappingBankCategory = "" then -1 else jsIndexOf headers mappingBankCategory
  let sourceRefIndex := sourceRefIndexOf institution accountType headers
  if dateIndex < 0 ∨ amountIndex < 0 ∨ descriptionIndex < 0 then
    .error "Invalid mapping selection."
  else
    .ok (rows.foldl
      (normalizeFoldStep hash institution accountType "mvp-user"
        (institution.str ++ "-" ++ accountType.str)
        dateIndex amountIndex descriptionIndex categoryIndex sourceRefIndex)
      ⟨[], 0⟩)

/-! ## CSV preview parsing — `src/app/api/upload-csv/route.ts` -/

/-- `parseCsvLine`'s loop: walk the characters with the accumulated values,
the current field and the `inQuotes` flag; `none` renders the thrown
`"Unterminated quoted field"`. -/
def parseCsvLineAux : List Char → List String → String → Bool → Option (List String)
  | [], values, current, inQuotes =>
      if inQuotes then none else some (values ++ [current])
  | '"' :: '"' :: rest, values, current, true =>
      parseCsvLineAux rest values (current.push '"') true
  | '"' :: rest, values, current, true =>
      parseCsvLineAux rest values current false
  | '"' :: rest, values, current, false =>
      parseCsvLineAux rest values current true
  | ',' :: rest, values, current, true =>
      parseCsvLineAux rest values (current.push ',') true
  | ',' :: rest, values, current, false =>
      parseCsvLineAux rest (values ++ [current]) "" false
  | c :: rest, values, current, inQuotes =>
      parseCsvLineAux rest values (current.push c) inQuotes

/-- `parseCsvLine` of `route.ts`. -/
def parseCsvLine (line : String) : Option (List String) :=
  parseCsvLineAux line.data [] "" false

/-- `normalizeCell` of `route.ts`: `value.trim().toLowerCase()`. -/
def normalizeCell (value : String) : String :=
  jsToLower (jsTrim value)

/-- The `HEADER_SETS` constant of `route.ts`. -/
def HEADER_SETS : List (List String) :=
  [["date", "description", "amount"], ["posted date", "payee", "amount"]]

/-- `hasRequiredColumns` of `route.ts`: some accepted vocabulary is a subset
of the normalized header fields. -/
def hasRequiredColumns (headers : List String) : Bool :=
  HEADER_SETS.any (fun requiredSet =>
    requiredSet.all (fun required => (headers.map normalizeCell).contains required))

/-- The error message thrown when no header line matches. -/
def noHeaderError : String :=
  "No valid transactions header found. Expected columns like Date/Description/Amount or Posted Date/Payee/Amount."

/-- The scan of `detectHeaderLineIndex`, carrying the current index. -/
def detectHeaderLineIndexAux : List String → Nat → Except String Nat
  | [], _ => .error noHeaderError
  | line :: rest, index =>
      match parseCsvLine line with
      | none => .error "Unterminated quoted field"
      | some columns =>
          if hasRequiredColumns columns then .ok index
          else detectHeaderLineIndexAux rest (index + 1)

/-- `detectHeaderLineIndex` of `route.ts`. -/
def detectHeaderLineIndex (lines : List String) : Except String Nat :=
  detectHeaderLineIndexAux lines 0

/-- JS `Map.prototype.set` on an association list whose keys are unique:
overwrite in place, else append. -/
def mapSet : List (String × String) → String → String → List (String × String)
  | [], k, v => [(k, v)]
  | e :: t, k, v => if e.1 = k then (k, v) :: t else e :: mapSet t k v

/-- JS `Map.prototype.get` (`none` = `undefined`). -/
def mapGet : List (String × String) → String → Option String
  | [], _ => none
  | e :: t, k => if e.1 = k then some e.2 else mapGet t k

/-- The loop of `buildMetadataMap`; `none` renders a thrown parse error
(unreachable from `parseCsvPreview`, which already parsed these lines). -/
def buildMetadataMapAux : List String → List (String × String) →
    Option (List (String × String))
  | [], m => some m
  | line :: rest, m =>
      match parseCsvLine line with
      | none => none
      | some cols =>
          let normalizedKey := normalizeCell (cols.headD "")
          let value := jsTrim (String.intercalate "," cols.tail)
          if normalizedKey ≠ "" ∧ value ≠ "" then
            buildMetadataMapAux rest (mapSet m normalizedKey value)
          else buildMetadataMapAux rest m

/-- `buildMetadataMap` of `route.ts`. -/
def buildMetadataMap (linesBeforeHeader : List String) :
    Option (List (String × String)) :=
  buildMetadataMapAux linesBeforeHeader []

/-- Claim-side reading of a metadata line `buildMetadataMap` captures: the
line parses, its normalized first field is `k`, its remaining fields
rejoined with commas and trimmed are `v`, and both are non-empty. -/
def QualLine (line k v : String) : Prop :=
  ∃ cols, parseCsvLine line = some cols ∧
    normalizeCell (cols.headD "") = k ∧
    jsTrim (String.intercalate "," cols.tail) = v ∧ k ≠ "" ∧ v ≠ ""

/-- Substring search (`String.prototype.includes`). -/
def containsSub (pat : List Char) : List Char → Bool
  | [] => (matchLit pat []).isSome
  | c :: rest => (matchLit pat (c :: rest)).isSome || containsSub pat rest

/-- `haystack.includes(needle)`. -/
def jsIncludes (s sub : String) : Bool :=
  containsSub sub.data s.data

/-- `detectInstitution` of `route.ts`. -/
def detectInstitution (csvText filename : String)
    (metadata : List (String × String)) : Institution :=
  let metadataText := String.intercalate " "
    (metadata.map (fun e => e.1 ++ " " ++ e.2))
  let combined := jsToLower (csvText ++ " " ++ filename ++ " " ++ metadataText)
  if jsIncludes combined "chase" then .chase else .boa

/-- `detectAccountType` of `route.ts`. -/
def detectAccountType (headers : List String)
    (metadata : List (String × String)) : AccountType :=
  let normalizedHeaders := headers.map normalizeCell
  if normalizedHeaders.contains "reference number" ||
      (mapGet metadata "card number").isSome then .credit_card
  else
    let accountLabel := normalizeCell
      ((mapGet metadata "account type").getD ((mapGet metadata "account").getD ""))
    if jsIncludes accountLabel "saving" then .savings else .checking

/-- `detectAccountNumber` of `route.ts`. -/
def detectAccountNumber (metadata : List (String × String)) : String :=
  jsTrim ((mapGet metadata "account number").getD
    ((mapGet metadata "account #").getD
      ((mapGet metadata "card number").getD
        ((mapGet metadata "account").getD ""))))

/-- `detectAccountName` of `route.ts`. -/
def detectAccountName (metadata : List (String × String))
    (accountType : AccountType) : String :=
  let explicitName := jsTrim ((mapGet metadata "account name").getD
    ((mapGet metadata "account").getD ""))
  if explicitName ≠ "" then explicitName
  else
    match accountType with
    | .credit_card => "Credit card"
    | .savings => "Savings"
    | .checking => "Checking"

/-- `buildAccountId` of `route.ts` (`accountNumber.replace(/\D/g, "")`,
`slice(-4)`). -/
def buildAccountId (institution : Institution) (accountType : AccountType)
    (accountNumber : String) : String :=
  let digitsOnly : String := ⟨accountNumber.data.filter Char.isDigit⟩
  if digitsOnly ≠ "" then
    let suffix : String := ⟨digitsOnly.data.drop (digitsOnly.data.length - 4)⟩
    institution.str ++ "-" ++ accountType.str ++ "-" ++ suffix
  else institution.str ++ "-" ++ accountType.str

/-- The `CsvPreview` shape of `route.ts` (detection fields inlined). -/
structure CsvPreview where
  headers : List String
  rows : List (List String)
  institution : Institution
  accountType : AccountType
  accountId : String
  accountName : String
deriving DecidableEq, Repr

/-- The line tokenization of `parseCsvPreview`:
`csvText.replace(/\r/g, "").split("\n").map(trim).filter(nonempty)`. -/
def splitLines (csvText : String) : List String :=
  ((splitOnChar '\n' ⟨csvText.data.filter (fun c => !(c = '\r'))⟩).map jsTrim).filter
    (fun l => l ≠ "")

/-- `parseCsvPreview` of `route.ts`.  The error branches on `parseCsvLine`
render the thrown `"Unterminated quoted field"`; the branch re-parsing the
header line and the metadata branch are unreachable (those lines already
parsed during header detection). -/
def parseCsvPreview (csvText filename : String) : Except String CsvPreview :=
  let lines := splitLines csvText
  if lines = [] then .error "CSV is empty"
  else
    match detectHeaderLineIndex lines with
    | .error e => .error e
    | .ok headerLineIndex =>
        let linesBeforeHeader := lines.take headerLineIndex
        match parseCsvLine (lines.getD headerLineIndex "") with
        | none => .error "Unterminated quoted field"
        | some rawHeaders =>
            match (lines.drop (headerLineIndex + 1)).mapM parseCsvLine with
            | none => .error "Unterminated quoted field"
            | some dataRows =>
                let maxColumns :=
                  max rawHeaders.length ((dataRows.map List.length).foldr max 0)
                let headers := (List.range maxColumns).map (fun index =>
                  let value := jsTrim (rawHeaders.getD index "")
                  if value ≠ "" then value else "Column " ++ toString (index + 1))
                let rows := (dataRows.take 20).map (fun row =>
                  (List.range headers.length).map (fun index => row.getD index ""))
                match buildMetadataMap linesBeforeHeader with
                | none => .error "Unterminated quoted field"
                | some metadata =>
                    let institution := detectInstitution csvText filename metadata
                    let accountType := detectAccountType headers metadata
                    let accountNumber := detectAccountNumber metadata
                    .ok { headers, rows, institution, accountType,
                          accountId := buildAccountId institution accountType accountNumber,
                          accountName := detectAccountName metadata accountType }

/-! ## Concrete sample inputs used by witnesses, counterexamples and self-tests -/

/-- A CSV file with a header line and 21 valid data rows, used to exhibit
the preview slice. -/
def c4Csv : String :=
  String.intercalate "\n"
    ["Date,Description,Amount",
     "1/1/2026,SHOP,1.00", "1/2/2026,SHOP,1.00", "1/3/2026,SHOP,1.00",
     "1/4/2026,SHOP,1.00", "1/5/2026,SHOP,1.00", "1/6/2026,SHOP,1.00",
     "1/7/2026,SHOP,1.00", "1/8/2026,SHOP,1.00", "1/9/2026,SHOP,1.00",
     "1/10/2026,SHOP,1.00", "1/11/2026,SHOP,1.00", "1/12/2026,SHOP,1.00",
     "1/13/2026,SHOP,1.00", "1/14/2026,SHOP,1.00", "1/15/2026,SHOP,1.00",
     "1/16/2026,SHOP,1.00", "1/17/2026,SHOP,1.00", "1/18/2026,SHOP,1.00",
     "1/19/2026,SHOP,1.00", "1/20/2026,SHOP,1.00", "1/21/2026,SHOP,1.00"]

/-- The two-data-row file used to witness C4 (amended). -/
def c4SmallCsv : String :=
  "Date,Description,Amount\n1/2/2026,SHOP,1.00\n1/3/2026,CAFE,2.00"

/-- The preview `parseCsvPreview` computes for `c4SmallCsv`. -/
def c4Preview : CsvPreview :=
  ⟨["Date", "Description", "Amount"],
    [["1/2/2026", "SHOP", "1.00"], ["1/3/2026", "CAFE", "2.00"]],
    .boa, .checking, "boa-checking", "Checking"⟩

/-- The `bofaLikeCsv` sample of `runParserInlineTests`. -/
def bofaLikeCsv : String := String.intercalate "\n"
  ["Account Number,123456789",
   "Statement Period,01/01/2026 - 01/31/2026",
   "Date,Description,Amount,Running Bal.",
   "01/02/2026,COFFEE SHOP,-5.75,994.25",
   "01/03/2026,PAYROLL,1200.00,2194.25"]

/-- The `creditCardCsv` sample of `runParserInlineTests`. -/
def creditCardCsv : String := String.intercalate "\n"
  ["Card Number,****1234",
   "Date,Description,Amount,Reference Number",
   "01/01/2026,ONLINE PURCHASE,-10.00,ABC123"]

/-- The `postedDateCsv` sample of `runParserInlineTests`. -/
def postedDateCsv : String := String.intercalate "\n"
  ["Report Generated,2026-02-13",
   "Posted Date,Payee,Amount",
   "02/01/2026,UTILITY BILL,-89.21"]

/-! ## Trim idempotence -/

lemma dropWhile_eq_self_of_head? {p : Char → Bool} {l : List Char}
    (h : ∀ a, l.head? = some a → p a = false) : l.dropWhile p = l := by
  cases l with
  | nil => rfl
  | cons a t => rw [List.dropWhile_cons, h a rfl]; simp

lemma rdrop_head?_not_ws (l : List Char) (a : Char)
    (h : ((l.dropWhile isJsWs).rdropWhile isJsWs).head? = some a) :
    isJsWs a = false := by
  rcases List.rdropWhile_prefix isJsWs (l.dropWhile isJsWs) with ⟨r, hr⟩
  have hD : (l.dropWhile isJsWs).head? = some a := by
    rw [← hr]
    cases hX : (l.dropWhile isJsWs).rdropWhile isJsWs with
    | nil => rw [hX] at h; simp at h
    | cons b t =>
        rw [hX] at h
        simp only [List.head?_cons, Option.some.injEq] at h
        simp [h]
  have hne : l.dropWhile isJsWs ≠ [] := by
    intro hnil
    rw [hnil] at hD
    simp at hD
  have hh := List.head_dropWhile_not isJsWs l hne
  have ha : (l.dropWhile isJsWs).head hne = a := by
    have h2 := List.head?_eq_head (l := l.dropWhile isJsWs) hne
    rw [hD] at h2
    exact (Option.some.inj h2).symm
  rwa [ha] at hh

lemma jsTrim_idem (s : String) : jsTrim (jsTrim s) = jsTrim s := by
  unfold jsTrim
  congr 1
  have h1 : ((s.data.dropWhile isJsWs).rdropWhile isJsWs).dropWhile isJsWs =
      (s.data.dropWhile isJsWs).rdropWhile isJsWs :=
    dropWhile_eq_self_of_head? (fun a ha => rdrop_head?_not_ws s.data a ha)
  show (((s.data.dropWhile isJsWs).rdropWhile isJsWs).dropWhile isJsWs).rdropWhile isJsWs
      = (s.data.dropWhile isJsWs).rdropWhile isJsWs
  rw [h1]
  exact List.rdropWhile_idempotent isJsWs (s.data.dropWhile isJsWs)

/-! ## Dedup engine lemmas -/

lemma collides_symm {t u : DedupableTransaction} (h : Collides t u) : Collides u t := by
  rcases h with h | ⟨k, h1, h2⟩
  · exact Or.inl h.symm
  · exact Or.inr ⟨k, h2, h1⟩

lemma dedupStep_dup {s : DedupState} {tx : DedupableTransaction}
    (h : DupAgainst s tx) :
    dedupStep s tx = { s with skippedDuplicates := s.skippedDuplicates ++ [tx] } := by
  unfold dedupStep
  rcases h with ⟨k, hk, hmem⟩ | hmem
  · rw [hk]; simp [hmem]
  · cases hsr : buildSourceRefKey tx <;> simp [hmem]

lemma dedupStep_new {s : DedupState} {tx : DedupableTransaction}
    (h : ¬ DupAgainst s tx) :
    dedupStep s tx =
      ⟨s.seenSourceRef ++ (buildSourceRefKey tx).toList,
        s.seenFingerprint ++ [buildFingerprintKey tx],
        s.imported ++ [tx], s.skippedDuplicates⟩ := by
  have hfp : buildFingerprintKey tx ∉ s.seenFingerprint := fun hm => h (Or.inr hm)
  unfold dedupStep
  cases hk : buildSourceRefKey tx with
  | none => simp [hfp]
  | some k =>
      have hsr : k ∉ s.seenSourceRef := fun hm => h (Or.inl ⟨k, hk, hm⟩)
      simp [hfp, hsr]

lemma dedupStep_mono (s : DedupState) (tx : DedupableTransaction) :
    s.seenSourceRef ⊆ (dedupStep s tx).seenSourceRef ∧
    s.seenFingerprint ⊆ (dedupStep s tx).seenFingerprint ∧
    s.imported ⊆ (dedupStep s tx).imported ∧
    s.skippedDuplicates ⊆ (dedupStep s tx).skippedDuplicates := by
  by_cases h : DupAgainst s tx
  · rw [dedupStep_dup h]
    exact ⟨by simp, by simp, by simp, by simp⟩
  · rw [dedupStep_new h]
    exact ⟨by simp, by simp, by simp, by simp⟩

lemma dedupRun_cons (s : DedupState) (a : DedupableTransaction)
    (l : List DedupableTransaction) :
    dedupRun s (a :: l) = dedupRun (dedupStep s a) l := rfl

lemma dedupRun_mono (l : List DedupableTransaction) : ∀ s : DedupState,
    s.seenSourceRef ⊆ (dedupRun s l).seenSourceRef ∧
    s.seenFingerprint ⊆ (dedupRun s l).seenFingerprint ∧
    s.imported ⊆ (dedupRun s l).imported ∧
    s.skippedDuplicates ⊆ (dedupRun s l).skippedDuplicates := by
  induction l with
  | nil => intro s; exact ⟨by simp [dedupRun], by simp [dedupRun],
      by simp [dedupRun], by simp [dedupRun]⟩
  | cons a t ih =>
      intro s
      have h1 := dedupStep_mono s a
      have h2 := ih (dedupStep s a)
      rw [dedupRun_cons]
      exact ⟨h1.1.trans h2.1, h1.2.1.trans h2.2.1, h1.2.2.1.trans h2.2.2.1,
        h1.2.2.2.trans h2.2.2.2⟩

lemma dupAgainst_mono {s s' : DedupState}
    (hsr : s.seenSourceRef ⊆ s'.seenSourceRef)
    (hfp : s.seenFingerprint ⊆ s'.seenFingerprint)
    {tx : DedupableTransaction} (h : DupAgainst s tx) : DupAgainst s' tx := by
  rcases h with ⟨k, hk, hm⟩ | hm
  · exact Or.inl ⟨k, hk, hsr hm⟩
  · exact Or.inr (hfp hm)

/-- A transaction that is a duplicate against the state reached after the
prefix `l1` lands in `skippedDuplicates` of the full run. -/
lemma dedup_dup_after (persisted l1 : List DedupableTransaction)
    (tx : DedupableTransaction) (l2 : List DedupableTransaction)
    (h : DupAgainst (dedupRun (seedFromPersisted persisted) l1) tx) :
    tx ∈ (dedupeTransactions (l1 ++ tx :: l2) persisted).skippedDuplicates := by
  show tx ∈ (dedupRun (seedFromPersisted persisted) (l1 ++ tx :: l2)).skippedDuplicates
  have hsplit : dedupRun (seedFromPersisted persisted) (l1 ++ tx :: l2) =
      dedupRun (dedupStep (dedupRun (seedFromPersisted persisted) l1) tx) l2 := by
    simp [dedupRun, List.foldl_append]
  rw [hsplit]
  apply (dedupRun_mono l2 _).2.2.2
  rw [dedupStep_dup h]
  simp

lemma seenInv_seed (persisted : List DedupableTransaction) :
    SeenInv (seedFromPersisted persisted) := by
  intro tx h
  simp [seedFromPersisted] at h

lemma seenInv_step {s : DedupState} (h : SeenInv s) (tx : DedupableTransaction) :
    SeenInv (dedupStep s tx) := by
  by_cases hd : DupAgainst s tx
  · rw [dedupStep_dup hd]
    exact fun u hu => h u hu
  · rw [dedupStep_new hd]
    intro u hu
    rcases List.mem_append.1 hu with hu | hu
    · have hh := h u hu
      exact ⟨List.mem_append_left _ hh.1,
        fun k hk => List.mem_append_left _ (hh.2 k hk)⟩
    · have heq : u = tx := by simpa using hu
      subst heq
      refine ⟨by simp, fun k hk => ?_⟩
      rw [hk]
      simp

lemma seenInv_run (l : List DedupableTransaction) : ∀ s : DedupState,
    SeenInv s → SeenInv (dedupRun s l) := by
  induction l with
  | nil => intro s h; exact h
  | cons a t ih =>
      intro s h
      rw [dedupRun_cons]
      exact ih _ (seenInv_step h a)

/-- When nothing in `rem` is a duplicate against `s` and `rem` is free of
internal key collisions, the loop imports everything in order. -/
lemma dedupRun_all_new (rem : List DedupableTransaction) : ∀ s : DedupState,
    (∀ tx ∈ rem, ¬ DupAgainst s tx) →
    rem.Pairwise (fun t u => ¬ Collides t u) →
    dedupRun s rem =
      ⟨s.seenSourceRef ++ rem.filterMap buildSourceRefKey,
        s.seenFingerprint ++ rem.map buildFingerprintKey,
        s.imported ++ rem, s.skippedDuplicates⟩ := by
  induction rem with
  | nil => intro s _ _; cases s; simp [dedupRun]
  | cons a t ih =>
      intro s hnew hpw
      have hda : ¬ DupAgainst s a := hnew a (by simp)
      have hpa := (List.pairwise_cons.1 hpw).1
      have hpt := (List.pairwise_cons.1 hpw).2
      rw [dedupRun_cons, dedupStep_new hda]
      rw [ih _ ?_ hpt]
      · cases hsa : buildSourceRefKey a <;>
          simp [hsa, List.filterMap_cons, List.append_assoc]
      · intro tx htx hd
        rcases hd with ⟨k, hk, hm⟩ | hm
        · rcases List.mem_append.1 hm with hm | hm
          · exact hnew tx (by simp [htx]) (Or.inl ⟨k, hk, hm⟩)
          · have hsa : buildSourceRefKey a = some k := by
              cases hsa : buildSourceRefKey a <;> simp [hsa] at hm <;>
                simp [hm]
            exact hpa tx htx (Or.inr ⟨k, hsa, hk⟩)
        · rcases List.mem_append.1 hm with hm | hm
          · exact hnew tx (by simp [htx]) (Or.inr hm)
          · have heq : buildFingerprintKey tx = buildFingerprintKey a := by
              simpa using hm
            exact hpa tx htx (Or.inl heq.symm)

/-- When everything in `rem` is a duplicate against `s`, the loop skips
everything and the state is otherwise unchanged. -/
lemma dedupRun_all_dup (rem : List DedupableTransaction) : ∀ s : DedupState,
    (∀ tx ∈ rem, DupAgainst s tx) →
    dedupRun s rem = { s with skippedDuplicates := s.skippedDuplicates ++ rem } := by
  induction rem with
  | nil => intro s _; cases s; simp [dedupRun]
  | cons a t ih =>
      intro s hdup
      rw [dedupRun_cons, dedupStep_dup (hdup a (by simp))]
      have hh := ih { s with skippedDuplicates := s.skippedDuplicates ++ [a] }
        (fun tx htx => hdup tx (by simp [htx]))
      rw [hh]
      simp

/-- Every transaction processed from a state whose seen sets are covered by
the keys of its `imported` list ends up key-covered by the final `imported`
list: it is a duplicate against a fresh seeding from that list. -/
lemma processed_covered (l : List DedupableTransaction) : ∀ s : DedupState,
    s.seenSourceRef ⊆ s.imported.filterMap buildSourceRefKey →
    s.seenFingerprint ⊆ s.imported.map buildFingerprintKey →
    ∀ tx ∈ l, DupAgainst (seedFromPersisted ((dedupRun s l).imported)) tx := by
  induction l with
  | nil => intro s _ _ tx htx; simp at htx
  | cons a t ih =>
      intro s hsr hfp tx htx
      rw [dedupRun_cons]
      have himp : (dedupStep s a).imported ⊆ (dedupRun (dedupStep s a) t).imported :=
        (dedupRun_mono t _).2.2.1
      rcases List.mem_cons.1 htx with heq | htx
      · subst heq
        by_cases hd : DupAgainst s tx
        · rcases hd with ⟨k, hk, hm⟩ | hm
          · refine Or.inl ⟨k, hk, ?_⟩
            have hm' := hsr hm
            rcases List.mem_filterMap.1 hm' with ⟨u, hu, hku⟩
            exact List.mem_filterMap.2 ⟨u, himp ((dedupStep_mono s tx).2.2.1 hu), hku⟩
          · refine Or.inr ?_
            have hm' := hfp hm
            rcases List.mem_map.1 hm' with ⟨u, hu, hku⟩
            exact List.mem_map.2 ⟨u, himp ((dedupStep_mono s tx).2.2.1 hu), hku⟩
        · refine Or.inr ?_
          have : tx ∈ (dedupStep s tx).imported := by
            rw [dedupStep_new hd]; simp
          exact List.mem_map.2 ⟨tx, himp this, rfl⟩
      · refine ih (dedupStep s a) ?_ ?_ tx htx
        · by_cases hd : DupAgainst s a
          · rw [dedupStep_dup hd]; exact hsr
          · rw [dedupStep_new hd]
            intro k hk
            rcases List.mem_append.1 hk with hk | hk
            · rcases List.mem_filterMap.1 (hsr hk) with ⟨u, hu, hku⟩
              exact List.mem_filterMap.2 ⟨u, List.mem_append_left _ hu, hku⟩
            · have : buildSourceRefKey a = some k := by
                cases hsa : buildSourceRefKey a <;> simp [hsa] at hk <;> simp [hk]
              exact List.mem_filterMap.2 ⟨a, List.mem_append_right _ (by simp), this⟩
        · by_cases hd : DupAgainst s a
          · rw [dedupStep_dup hd]; exact hfp
          · rw [dedupStep_new hd]
            intro k hk
            rcases List.mem_append.1 hk with hk | hk
            · rcases List.mem_map.1 (hfp hk) with ⟨u, hu, hku⟩
              exact List.mem_map.2 ⟨u, List.mem_append_left _ hu, hku⟩
            · have : k = buildFingerprintKey a := by simpa using hk
              exact List.mem_map.2 ⟨a, List.mem_append_right _ (by simp), this.symm⟩

/-! ## Claims about the dedup engine (C1, C2, C3) -/

/-- C1 (counterexample): a batch of two identical transactions (N = 2) against
an empty persisted set yields `imported_count = 1` and
`skipped_duplicates_count = 1`, not `imported_count = N` and
`skipped_duplicates_count = 0` as the claim states for every batch. -/
theorem dedupe_idempotence_counterexample :
    (dedupeTransactions
        [⟨"u", "a", .boa, none, "F"⟩, ⟨"u", "a", .boa, none, "F"⟩] []).imported_count = 1 ∧
    (dedupeTransactions
        [⟨"u", "a", .boa, none, "F"⟩, ⟨"u", "a", .boa, none, "F"⟩] []).skipped_duplicates_count = 1 := by
  decide

/-- C1 (amended): for a batch `B` of `N` transactions whose dedup keys are
pairwise non-colliding, `dedupeTransactions B []` returns
`imported_count = N`, `skipped_duplicates_count = 0` (and imports the batch
unchanged); and for every batch `B`, the second call against the first call's
imported list returns `imported_count = 0`, `skipped_duplicates_count = N`. -/
theorem dedupe_idempotence_amended :
    (∀ B : List DedupableTransaction,
      B.Pairwise (fun t u => ¬ Collides t u) →
      (dedupeTransactions B []).imported = B ∧
      (dedupeTransactions B []).imported_count = B.length ∧
      (dedupeTransactions B []).skipped_duplicates_count = 0) ∧
    (∀ B : List DedupableTransaction,
      (dedupeTransactions B ((dedupeTransactions B []).imported)).imported_count = 0 ∧
      (dedupeTransactions B ((dedupeTransactions B []).imported)).skipped_duplicates_count
        = B.length) := by
  constructor
  · intro B hpw
    have hnew : ∀ tx ∈ B, ¬ DupAgainst (seedFromPersisted []) tx := by
      intro tx _
      rintro (⟨k, hk, hm⟩ | hm) <;> simp [seedFromPersisted] at hm
    have h := dedupRun_all_new B (seedFromPersisted []) hnew hpw
    refine ⟨?_, ?_, ?_⟩ <;> simp only [dedupeTransactions] <;> rw [h] <;>
      simp [seedFromPersisted]
  · intro B
    set I := (dedupeTransactions B []).imported with hI
    have hcov : ∀ tx ∈ B, DupAgainst (seedFromPersisted I) tx := by
      intro tx htx
      exact processed_covered B (seedFromPersisted [])
        (by simp [seedFromPersisted]) (by simp [seedFromPersisted]) tx htx
    have h := dedupRun_all_dup B (seedFromPersisted I) hcov
    constructor <;> simp only [dedupeTransactions] <;> rw [h] <;>
      simp [seedFromPersisted]

/-- Witness for C1 (amended), at a concrete two-element batch with distinct
fingerprints. -/
theorem dedupe_idempotence_amended_witness :
    ((dedupeTransactions
        [⟨"u", "a", .boa, none, "F"⟩, ⟨"u", "a", .boa, none, "G"⟩] []).imported =
      [⟨"u", "a", .boa, none, "F"⟩, ⟨"u", "a", .boa, none, "G"⟩] ∧
     (dedupeTransactions
        [⟨"u", "a", .boa, none, "F"⟩, ⟨"u", "a", .boa, none, "G"⟩] []).imported_count = 2 ∧
     (dedupeTransactions
        [⟨"u", "a", .boa, none, "F"⟩, ⟨"u", "a", .boa, none, "G"⟩]
        []).skipped_duplicates_count = 0) ∧
    (dedupeTransactions [⟨"u", "a", .boa, none, "F"⟩, ⟨"u", "a", .boa, none, "G"⟩]
        ((dedupeTransactions
          [⟨"u", "a", .boa, none, "F"⟩, ⟨"u", "a", .boa, none, "G"⟩] []).imported)).imported_count
      = 0 ∧
    (dedupeTransactions [⟨"u", "a", .boa, none, "F"⟩, ⟨"u", "a", .boa, none, "G"⟩]
        ((dedupeTransactions
          [⟨"u", "a", .boa, none, "F"⟩, ⟨"u", "a", .boa, none, "G"⟩]
          []).imported)).skipped_duplicates_count = 2 :=
  ⟨dedupe_idempotence_amended.1
      [⟨"u", "a", .boa, none, "F"⟩, ⟨"u", "a", .boa, none, "G"⟩] (by decide),
    (dedupe_idempotence_amended.2
      [⟨"u", "a", .boa, none, "F"⟩, ⟨"u", "a", .boa, none, "G"⟩]).1,
    (dedupe_idempotence_amended.2
      [⟨"u", "a", .boa, none, "F"⟩, ⟨"u", "a", .boa, none, "G"⟩]).2⟩

/-- C2 (counterexample): incoming `[tx1, tx2]` share the non-empty
`source_ref = "R"` and differ in fingerprint (`"F"` vs `"G"`), agreeing on
`userId`, `accountId`, `institution` and `source`.  Against a persisted
transaction carrying fingerprint `"F"` and no `source_ref`, `tx1` is skipped
by fingerprint — so its source-ref key is never registered — and the
later-seen `tx2` is imported, not classified as a duplicate as the claim
states. -/
theorem dedupe_source_ref_priority_counterexample :
    (dedupeTransactions
        [⟨"u", "a", .boa, some "R", "F"⟩, ⟨"u", "a", .boa, some "R", "G"⟩]
        [⟨"u", "a", .boa, none, "F"⟩]).imported = [⟨"u", "a", .boa, some "R", "G"⟩] ∧
    (dedupeTransactions
        [⟨"u", "a", .boa, some "R", "F"⟩, ⟨"u", "a", .boa, some "R", "G"⟩]
        [⟨"u", "a", .boa, none, "F"⟩]).skippedDuplicates =
      [⟨"u", "a", .boa, some "R", "F"⟩] ∧
    jsTrim "R" ≠ "" ∧ ("F" : String) ≠ "G" := by
  decide

/-- C2 (amended): a transaction `tx2` whose source-ref key is applicable is
classified as a duplicate whenever that key is carried by some persisted
transaction or by some transaction imported from the batch prefix preceding
`tx2` — in particular whenever an earlier transaction with the same
`source_ref` (even with a different fingerprint) was imported. -/
theorem dedupe_source_ref_priority_amended :
    ∀ (persisted l1 : List DedupableTransaction) (tx2 : DedupableTransaction)
      (l2 : List DedupableTransaction) (k : String),
      buildSourceRefKey tx2 = some k →
      ((∃ p ∈ persisted, buildSourceRefKey p = some k) ∨
        ∃ a ∈ (dedupeTransactions l1 persisted).imported, buildSourceRefKey a = some k) →
      tx2 ∈ (dedupeTransactions (l1 ++ tx2 :: l2) persisted).skippedDuplicates := by
  intro persisted l1 tx2 l2 k hk hsrc
  have hd : DupAgainst (dedupRun (seedFromPersisted persisted) l1) tx2 := by
    rcases hsrc with ⟨p, hp, hpk⟩ | ⟨a, ha, hak⟩
    · refine Or.inl ⟨k, hk, ?_⟩
      have hmem : k ∈ (seedFromPersisted persisted).seenSourceRef :=
        List.mem_filterMap.2 ⟨p, hp, hpk⟩
      exact (dedupRun_mono l1 _).1 hmem
    · have hInv := seenInv_run l1 _ (seenInv_seed persisted)
      exact Or.inl ⟨k, hk, (hInv a ha).2 k hak⟩
  exact dedup_dup_after persisted l1 tx2 l2 hd

/-- Witness for C2 (amended): one incoming transaction against a persisted
transaction with the same source-ref key but a different fingerprint. -/
theorem dedupe_source_ref_priority_amended_witness :
    (⟨"u", "a", .boa, some "R", "G"⟩ : DedupableTransaction) ∈
      (dedupeTransactions [⟨"u", "a", .boa, some "R", "G"⟩]
        [⟨"u", "a", .boa, some "R", "F"⟩]).skippedDuplicates :=
  dedupe_source_ref_priority_amended [⟨"u", "a", .boa, some "R", "F"⟩] []
    ⟨"u", "a", .boa, some "R", "G"⟩ [] "u|a|boa|csv|R" (by decide)
    (Or.inl ⟨⟨"u", "a", .boa, some "R", "F"⟩, by decide, by decide⟩)

/-- C3: (general) a transaction `b` whose fingerprint key, or applicable
source-ref key, equals that of a transaction `a` imported from the batch
prefix before `b`, is classified as a duplicate of the same batch; and
(particular, spec Scenario D) a batch of exactly two transactions with equal
`userId`, `accountId` and `fingerprint`, deduped against an empty persisted
list, yields exactly the first occurrence imported and the second skipped. -/
theorem dedupe_within_batch_first_occurrence_wins :
    (∀ (persisted l1 : List DedupableTransaction) (b : DedupableTransaction)
        (l2 : List DedupableTransaction) (a : DedupableTransaction),
      a ∈ (dedupeTransactions l1 persisted).imported →
      (buildFingerprintKey b = buildFingerprintKey a ∨
        ∃ k, buildSourceRefKey b = some k ∧ buildSourceRefKey a = some k) →
      b ∈ (dedupeTransactions (l1 ++ b :: l2) persisted).skippedDuplicates) ∧
    (∀ t1 t2 : DedupableTransaction, t1.userId = t2.userId →
      t1.accountId = t2.accountId → t1.fingerprint = t2.fingerprint →
      (dedupeTransactions [t1, t2] []).imported = [t1] ∧
      (dedupeTransactions [t1, t2] []).skippedDuplicates = [t2] ∧
      (dedupeTransactions [t1, t2] []).imported_count = 1 ∧
      (dedupeTransactions [t1, t2] []).skipped_duplicates_count = 1) := by
  constructor
  · intro persisted l1 b l2 a ha hcol
    have hInv : SeenInv (dedupRun (seedFromPersisted persisted) l1) :=
      seenInv_run l1 _ (seenInv_seed persisted)
    have ha' : a ∈ (dedupRun (seedFromPersisted persisted) l1).imported := ha
    have hd : DupAgainst (dedupRun (seedFromPersisted persisted) l1) b := by
      rcases hcol with hfp | ⟨k, hb, ha2⟩
      · exact Or.inr (hfp ▸ (hInv a ha').1)
      · exact Or.inl ⟨k, hb, (hInv a ha').2 k ha2⟩
    exact dedup_dup_after persisted l1 b l2 hd
  · intro t1 t2 h1 h2 h3
    have hfp : buildFingerprintKey t1 = buildFingerprintKey t2 := by
      unfold buildFingerprintKey
      rw [h1, h2, h3]
    have hd1 : ¬ DupAgainst (seedFromPersisted []) t1 := by
      rintro (⟨k, hk, hm⟩ | hm) <;> simp [seedFromPersisted] at hm
    have hd2 : DupAgainst (dedupStep (seedFromPersisted []) t1) t2 := by
      refine Or.inr ?_
      rw [dedupStep_new hd1]
      simp [seedFromPersisted, ← hfp]
    have e1 : dedupRun (seedFromPersisted []) [t1, t2] =
        dedupStep (dedupStep (seedFromPersisted []) t1) t2 := rfl
    have efinal : dedupRun (seedFromPersisted []) [t1, t2] =
        { dedupStep (seedFromPersisted []) t1 with
          skippedDuplicates :=
            (dedupStep (seedFromPersisted []) t1).skippedDuplicates ++ [t2] } := by
      rw [e1, dedupStep_dup hd2]
    refine ⟨?_, ?_, ?_, ?_⟩ <;> simp only [dedupeTransactions] <;>
      rw [efinal, dedupStep_new hd1] <;> simp [seedFromPersisted]

/-- Witness for C3, at a concrete pair with equal fingerprint keys and at the
concrete Scenario D instance. -/
theorem dedupe_within_batch_first_occurrence_wins_witness :
    (⟨"u1", "a1", .boa, some "r", "fp"⟩ : DedupableTransaction) ∈
      (dedupeTransactions
        [⟨"u1", "a1", .boa, none, "fp"⟩, ⟨"u1", "a1", .boa, some "r", "fp"⟩]
        []).skippedDuplicates ∧
    (dedupeTransactions
      [(⟨"u2", "a2", .chase, none, "g"⟩ : DedupableTransaction),
        ⟨"u2", "a2", .chase, none, "g"⟩] []).imported_count = 1 :=
  ⟨dedupe_within_batch_first_occurrence_wins.1 [] [⟨"u1", "a1", .boa, none, "fp"⟩]
      ⟨"u1", "a1", .boa, some "r", "fp"⟩ [] ⟨"u1", "a1", .boa, none, "fp"⟩
      (by decide) (Or.inl (by decide)),
    (dedupe_within_batch_first_occurrence_wins.2
      ⟨"u2", "a2", .chase, none, "g"⟩ ⟨"u2", "a2", .chase, none, "g"⟩
      rfl rfl rfl).2.2.1⟩

/-! ## Strict date parsing (C7) -/

lemma parseMDYParts_iff (s : String) (m d y : Nat) :
    parseMDYParts s = some (m, d, y) ↔ MDYFormat s m d y := by
  unfold parseMDYParts MDYFormat
  cases hsp : splitOnChar '/' (jsTrim s) with
  | nil => simp
  | cons a t =>
      cases t with
      | nil => simp
      | cons b t2 =>
          cases t2 with
          | nil => simp
          | cons c t3 =>
              cases t3 with
              | cons e t4 => simp
              | nil =>
                  constructor
                  · intro h
                    dsimp only at h
                    split_ifs at h with hcond
                    · obtain ⟨h1, h2, h3, h4, h5, h6, h7, h8⟩ := hcond
                      simp only [Option.some.injEq, Prod.mk.injEq] at h
                      exact ⟨a, b, c, rfl, h1, h2, h3, h.1, h4, h5, h6, h.2.1,
                        h7, h8, h.2.2⟩
                  · rintro ⟨ms, ds, ys, heq, h1, h2, h3, h4, h5, h6, h7, h8, h9, h10, h11⟩
                    obtain ⟨rfl, rfl, rfl⟩ : a = ms ∧ b = ds ∧ c = ys := by
                      simpa using heq
                    dsimp only
                    rw [if_pos ⟨h1, h2, h3, h5, h6, h7, h9, h10⟩, h4, h8, h11]

/-- The round-trip check of `parseMDYDateToISO` succeeds exactly on real
calendar dates with year at least 100 (two-digit years are remapped by
`Date.UTC` into 1900–1999 and so never round-trip). -/
lemma jsUTCNormalize_roundtrip (y m d : Nat) (_hm1 : 1 ≤ m) (_hm2 : m ≤ 12)
    (_hd1 : 1 ≤ d) (_hd2 : d ≤ 31) :
    jsUTCNormalize (jsUTCYear y) m d = ((y : Int), m, d) ↔
      (d ≤ daysInMonth (y : Int) m ∧ 100 ≤ y) := by
  unfold jsUTCNormalize jsUTCYear
  by_cases hy : y ≤ 99
  · rw [if_pos hy]
    constructor
    · intro h
      exfalso
      split_ifs at h with h1 h2 <;>
        simp only [Prod.mk.injEq] at h <;> omega
    · rintro ⟨-, h⟩
      omega
  · rw [if_neg hy]
    constructor
    · intro h
      split_ifs at h with h1 h2 <;> simp only [Prod.mk.injEq] at h
      · exact ⟨h1, by omega⟩
      · omega
      · omega
    · rintro ⟨h1, -⟩
      rw [if_pos h1]

lemma daysInMonth_le (y : Int) (m : Nat) : daysInMonth y m ≤ 31 := by
  unfold daysInMonth
  split_ifs <;> omega

/-- C7: `parseMDYDateToISO` accepts exactly the strings of the form
`M/D/YYYY` (month/day 1–2 digits, year exactly 4 digits) denoting a real
proleptic-Gregorian calendar date that round-trips exactly through the
`Date.UTC` reconstruction — equivalently, a real calendar date with year
`≥ 100`, since `Date.UTC` remaps two-digit years into 1900–1999 and those
never round-trip — and returns the ISO `YYYY-MM-DD` string; in particular
`"02/30/2026"` is rejected and `"2/1/2026"` parses to `"2026-02-01"`. -/
theorem parse_mdy_date_strict :
    (∀ s out, parseMDYDateToISO s = some out →
      ∃ m d y : Nat, MDYFormat s m d y ∧ RealCalendarDate (y : Int) m d ∧
        100 ≤ y ∧ out = pad4 y ++ "-" ++ pad2 m ++ "-" ++ pad2 d) ∧
    (∀ s m d y, MDYFormat s m d y → RealCalendarDate (y : Int) m d → 100 ≤ y →
      parseMDYDateToISO s = some (pad4 y ++ "-" ++ pad2 m ++ "-" ++ pad2 d)) ∧
    parseMDYDateToISO "02/30/2026" = none ∧
    parseMDYDateToISO "2/1/2026" = some "2026-02-01" := by
  refine ⟨?_, ?_, by decide, by decide⟩
  · intro s out h
    unfold parseMDYDateToISO at h
    cases hp : parseMDYParts s with
    | none => rw [hp] at h; exact absurd h (by simp)
    | some t =>
        obtain ⟨m, d, y⟩ := t
        rw [hp] at h
        dsimp only at h
        split_ifs at h with h1 h2
        push_neg at h1
        obtain ⟨hm1, hm2, hd1, hd2⟩ := h1
        have hrt := (jsUTCNormalize_roundtrip y m d hm1 hm2 hd1 hd2).1 h2
        refine ⟨m, d, y, (parseMDYParts_iff s m d y).1 hp,
          ⟨hm1, hm2, hd1, hrt.1⟩, hrt.2, ?_⟩
        simpa using h.symm
  · intro s m d y hfmt hreal hy
    have hp : parseMDYParts s = some (m, d, y) := (parseMDYParts_iff s m d y).2 hfmt
    unfold parseMDYDateToISO
    rw [hp]
    dsimp only
    obtain ⟨hm1, hm2, hd1, hdim⟩ := hreal
    have hd31 : d ≤ 31 := hdim.trans (daysInMonth_le _ _)
    rw [if_neg (by omega : ¬(m < 1 ∨ 12 < m ∨ d < 1 ∨ 31 < d)),
      if_pos ((jsUTCNormalize_roundtrip y m d hm1 hm2 hd1 hd31).2 ⟨hdim, hy⟩)]

/-- Witness for C7, at the concrete date `12/31/2026`. -/
theorem parse_mdy_date_strict_witness :
    parseMDYDateToISO "12/31/2026" = some (pad4 2026 ++ "-" ++ pad2 12 ++ "-" ++ pad2 31) :=
  parse_mdy_date_strict.2.1 "12/31/2026" 12 31 2026 ⟨"12", "31", "2026", by decide⟩
    ⟨by decide, by decide, by decide, by decide⟩ (by decide)

/-! ## Amount parsing (C8) -/

/-- C8: `parseAmount` trims its input (trim-invariance and the `"  12.5  "`
instance), treats a fully parenthesized value as negative
(`"(5.75)" ↦ -23/4 = -5.75`), strips thousands-separator commas and `$`
(`"$1,200.00" ↦ 1200`), converts the remainder with `Number()`, and rejects
empty input and non-finite results (`""`, `"Infinity"`, `"abc"` ↦ null). -/
theorem parseAmount_spec :
    parseAmount "(5.75)" = some (-(23 / 4 : ℚ)) ∧
    parseAmount "$1,200.00" = some (1200 : ℚ) ∧
    parseAmount "" = none ∧
    parseAmount "Infinity" = none ∧
    parseAmount "abc" = none ∧
    parseAmount "  12.5  " = some (25 / 2 : ℚ) ∧
    (∀ s, parseAmount (jsTrim s) = parseAmount s) := by
  refine ⟨?_, ?_, by decide, by decide, by decide, ?_, ?_⟩
  · have h : parseAmount "(5.75)" = some (Rat.divInt (-23) 4) := by decide
    rw [h, Rat.divInt_eq_div]
    norm_num
  · have h : parseAmount "$1,200.00" = some (Rat.divInt 1200 1) := by decide
    rw [h, Rat.divInt_eq_div]
    norm_num
  · have h : parseAmount "  12.5  " = some (Rat.divInt 25 2) := by decide
    rw [h, Rat.divInt_eq_div]
    norm_num
  · intro s
    unfold parseAmount
    rw [jsTrim_idem]

/-! ## Fingerprint input and normalization (C5, C9, C10) -/

/-- C5 (code bug): the hash input is built by plain concatenation with no
separator, so it is not injective in the five fields: the two distinct
tuples `(mvp-user, boa-checking, 2026-01-01, 1.5, "2foo")` and
`(mvp-user, boa-checking, 2026-01-01, 1.52, "foo")` produce the identical
input string.  The extra conjuncts show both tuples are reachable: both
amount strings are produced by `String()` on parseable amounts, and both
descriptions are fixed points of description normalization. -/
theorem fingerprint_input_collision :
    fingerprintInput "mvp-user" "boa-checking" "2026-01-01" (Rat.divInt 3 2) "2foo" =
      fingerprintInput "mvp-user" "boa-checking" "2026-01-01" (Rat.divInt 38 25) "foo" ∧
    Rat.divInt 3 2 ≠ Rat.divInt 38 25 ∧
    ("2foo" : String) ≠ "foo" ∧
    jsNumToString (Rat.divInt 3 2) = "1.5" ∧
    jsNumToString (Rat.divInt 38 25) = "1.52" ∧
    parseAmount "1.5" = some (Rat.divInt 3 2) ∧
    parseAmount "1.52" = some (Rat.divInt 38 25) ∧
    normalizeDescription "2foo" = "2foo" ∧
    normalizeDescription "foo" = "foo" := by
  decide

lemma sourceRefIndexOf_nonneg {institution : Institution} {accountType : AccountType}
    {headers : List String} (h : 0 ≤ sourceRefIndexOf institution accountType headers) :
    institution = .boa ∧ accountType = .credit_card := by
  unfold sourceRefIndexOf at h
  split_ifs at h with hc
  · exact hc
  · omega

/-- The `source_ref` field of any transaction emitted by the loop body. -/
lemma normalizeRow_source_ref {hash : String → String} {institution : Institution}
    {accountType : AccountType} {userId accountId : String}
    {dateIndex amountIndex descriptionIndex categoryIndex sourceRefIndex : Int}
    {row : List String} {tx : CanonicalTransaction}
    (h : normalizeRow hash institution accountType userId accountId dateIndex
      amountIndex descriptionIndex categoryIndex sourceRefIndex row = some tx) :
    tx.source_ref =
      if 0 ≤ sourceRefIndex ∧ jsTrim (rowGet row sourceRefIndex) ≠ "" then
        some (jsTrim (rowGet row sourceRefIndex))
      else none := by
  simp only [normalizeRow] at h
  by_cases hc1 : (decide (jsTrim (rowGet row amountIndex) = "") ||
      isBeginningBalanceRow (jsTrim (rowGet row descriptionIndex))) = true
  · rw [if_pos hc1] at h
    simp at h
  · rw [if_neg hc1] at h
    cases hpd : parseMDYDateToISO (rowGet row dateIndex) with
    | none => rw [hpd] at h; simp at h
    | some pd =>
        cases hpa : parseAmount (rowGet row amountIndex) with
        | none => rw [hpd, hpa] at h; simp at h
        | some q =>
            rw [hpd, hpa] at h
            dsimp only at h
            by_cases hc2 : jsTrim (rowGet row descriptionIndex) = ""
            · rw [if_pos hc2] at h
              simp at h
            · rw [if_neg hc2] at h
              obtain rfl := (Option.some.inj h).symm
              dsimp only
              by_cases h3 : 0 ≤ sourceRefIndex
              · by_cases h4 : jsTrim (rowGet row sourceRefIndex) = "" <;> simp [h3, h4]
              · simp [h3]

/-- C9 (counterexample): with the user-selected context `chase` +
`credit_card`, a header set containing `Reference Number` and a row whose
reference-number cell `"REF9"` is non-empty after trim, the emitted
transaction carries no `source_ref` — the code additionally requires
`institution === "boa"`, which the claim omits. -/
theorem source_ref_attachment_counterexample :
    (handleNormalize (fun _ => "") .chase .credit_card
        ["Date", "Description", "Amount", "Reference Number"]
        "Date" "Amount" "Description" ""
        [["1/2/2026", "STORE", "-5.75", "REF9"]]).map
      (fun out => out.canonical.map CanonicalTransaction.source_ref) =
      .ok [none] ∧
    jsTrim "REF9" ≠ "" := by
  decide

/-- C9 (amended): an emitted transaction carries `source_ref` exactly when
the institution is `boa` AND the account type is `credit_card` AND a
"reference number" column exists (`sourceRefIndexOf ≥ 0`) AND that row's
cell is non-empty after trim; when carried, it equals the trimmed cell. -/
theorem source_ref_attachment_amended :
    ∀ (hash : String → String) (institution : Institution) (accountType : AccountType)
      (headers : List String) (userId accountId : String)
      (dateIndex amountIndex descriptionIndex categoryIndex : Int)
      (row : List String) (tx : CanonicalTransaction),
      normalizeRow hash institution accountType userId accountId dateIndex amountIndex
        descriptionIndex categoryIndex (sourceRefIndexOf institution accountType headers)
        row = some tx →
      (tx.source_ref ≠ none ↔
        (institution = .boa ∧ accountType = .credit_card ∧
          0 ≤ sourceRefIndexOf institution accountType headers ∧
          jsTrim (rowGet row (sourceRefIndexOf institution accountType headers)) ≠ "")) ∧
      ∀ v, tx.source_ref = some v →
        v = jsTrim (rowGet row (sourceRefIndexOf institution accountType headers)) := by
  intro hash institution accountType headers userId accountId dIdx aIdx deIdx cIdx row tx h
  have hsr := normalizeRow_source_ref h
  constructor
  · constructor
    · intro hne
      rw [hsr] at hne
      by_cases hc : 0 ≤ sourceRefIndexOf institution accountType headers ∧
          jsTrim (rowGet row (sourceRefIndexOf institution accountType headers)) ≠ ""
      · obtain ⟨hb, hcc⟩ := sourceRefIndexOf_nonneg hc.1
        exact ⟨hb, hcc, hc.1, hc.2⟩
      · rw [if_neg hc] at hne
        exact absurd rfl hne
    · rintro ⟨-, -, h1, h2⟩
      rw [hsr, if_pos ⟨h1, h2⟩]
      simp
  · intro v hv
    rw [hsr] at hv
    by_cases hc : 0 ≤ sourceRefIndexOf institution accountType headers ∧
        jsTrim (rowGet row (sourceRefIndexOf institution accountType headers)) ≠ ""
    · rw [if_pos hc] at hv
      exact (Option.some.inj hv).symm
    · rw [if_neg hc] at hv
      exact absurd hv (by simp)

/-- Witness for C9 (amended), at a concrete boa credit-card row whose
reference-number cell is `"REF9"`. -/
theorem source_ref_attachment_amended_witness :
    ((some "REF9" : Option String) ≠ none ↔
      (Institution.boa = Institution.boa ∧
        AccountType.credit_card = AccountType.credit_card ∧
        0 ≤ sourceRefIndexOf .boa .credit_card
          ["Date", "Description", "Amount", "Reference Number"] ∧
        jsTrim (rowGet ["1/2/2026", "STORE", "-5.75", "REF9"]
          (sourceRefIndexOf .boa .credit_card
            ["Date", "Description", "Amount", "Reference Number"])) ≠ "")) ∧
    (∀ v, (some "REF9" : Option String) = some v →
      v = jsTrim (rowGet ["1/2/2026", "STORE", "-5.75", "REF9"]
        (sourceRefIndexOf .boa .credit_card
          ["Date", "Description", "Amount", "Reference Number"]))) :=
  source_ref_attachment_amended (fun _ => "") .boa .credit_card
    ["Date", "Description", "Amount", "Reference Number"] "mvp-user" "boa-credit_card"
    0 2 1 (-1) ["1/2/2026", "STORE", "-5.75", "REF9"]
    ⟨.boa, .credit_card, "2026-01-02", Rat.divInt (-23) 4, "STORE", none, some "REF9", ""⟩
    (by decide)

lemma normalizeFold_conservation (hash : String → String) (institution : Institution)
    (accountType : AccountType) (userId accountId : String)
    (dateIndex amountIndex descriptionIndex categoryIndex sourceRefIndex : Int) :
    ∀ (rows : List (List String)) (acc : NormalizeOutcome),
      (rows.foldl (normalizeFoldStep hash institution accountType userId accountId
        dateIndex amountIndex descriptionIndex categoryIndex sourceRefIndex) acc).canonical.length +
      (rows.foldl (normalizeFoldStep hash institution accountType userId accountId
        dateIndex amountIndex descriptionIndex categoryIndex sourceRefIndex) acc).skipped_invalid_count =
      acc.canonical.length + acc.skipped_invalid_count + rows.length := by
  intro rows
  induction rows with
  | nil => intro acc; simp
  | cons r t ih =>
      intro acc
      rw [List.foldl_cons, ih]
      unfold normalizeFoldStep
      cases normalizeRow hash institution accountType userId accountId dateIndex
          amountIndex descriptionIndex categoryIndex sourceRefIndex r <;>
        simp <;> omega

/-- Whenever `handleNormalize` succeeds, each row contributed exactly one of
a canonical transaction or an invalid-count increment. -/
lemma handleNormalize_ok_conservation :
    ∀ (hash : String → String) (institution : Institution) (accountType : AccountType)
      (headers : List String)
      (mappingDate mappingAmount mappingDescription mappingBankCategory : String)
      (rows : List (List String)) (out : NormalizeOutcome),
      handleNormalize hash institution accountType headers mappingDate mappingAmount
        mappingDescription mappingBankCategory rows = .ok out →
      out.canonical.length + out.skipped_invalid_count = rows.length := by
  intro hash institution accountType headers mD mA mDe mC rows out h
  simp only [handleNormalize] at h
  generalize hcat : (if mC = "" then (-1 : Int) else jsIndexOf headers mC) = cIdx at h
  split_ifs at h
  injection h with h3
  rw [← h3]
  simpa using normalizeFold_conservation hash institution accountType "mvp-user"
    (institution.str ++ "-" ++ accountType.str) (jsIndexOf headers mD)
    (jsIndexOf headers mA) (jsIndexOf headers mDe) cIdx
    (sourceRefIndexOf institution accountType headers) rows ⟨[], 0⟩

/-- C10: every row processed by `handleNormalize` contributes exactly one of
an emitted canonical transaction or one increment of the invalid counter:
`canonical.length + skipped_invalid_count = rows.length`, so no row is
dropped uncounted or counted twice. -/
theorem normalize_row_conservation :
    ∀ (hash : String → String) (institution : Institution) (accountType : AccountType)
      (headers : List String)
      (mappingDate mappingAmount mappingDescription mappingBankCategory : String)
      (rows : List (List String)) (out : NormalizeOutcome),
      handleNormalize hash institution accountType headers mappingDate mappingAmount
        mappingDescription mappingBankCategory rows = .ok out →
      out.canonical.length + out.skipped_invalid_count = rows.length :=
  handleNormalize_ok_conservation

/-- Witness for C10: two rows, one valid and one with an invalid date;
`1 + 1 = 2`. -/
theorem normalize_row_conservation_witness :
    handleNormalize (fun _ => "") .boa .checking ["Date", "Description", "Amount"]
        "Date" "Amount" "Description" ""
        [["1/2/2026", "STORE", "-5.75"], ["bad", "STORE", "1.00"]] =
      .ok ⟨[⟨.boa, .checking, "2026-01-02", Rat.divInt (-23) 4, "STORE", none, none, ""⟩], 1⟩ ∧
    ((⟨[⟨.boa, .checking, "2026-01-02", Rat.divInt (-23) 4, "STORE", none, none, ""⟩],
        1⟩ : NormalizeOutcome).canonical.length +
      (⟨[⟨.boa, .checking, "2026-01-02", Rat.divInt (-23) 4, "STORE", none, none, ""⟩],
        1⟩ : NormalizeOutcome).skipped_invalid_count = 2) :=
  ⟨by decide,
    normalize_row_conservation (fun _ => "") .boa .checking
      ["Date", "Description", "Amount"] "Date" "Amount" "Description" ""
      [["1/2/2026", "STORE", "-5.75"], ["bad", "STORE", "1.00"]]
      ⟨[⟨.boa, .checking, "2026-01-02", Rat.divInt (-23) 4, "STORE", none, none, ""⟩], 1⟩
      (by decide)⟩

/-! ## Header detection and metadata lemmas -/

lemma detectAux_ok (lines : List String) : ∀ i0 i,
    detectHeaderLineIndexAux lines i0 = .ok i →
    i0 ≤ i ∧ i - i0 < lines.length ∧
    (∃ cols, parseCsvLine (lines.getD (i - i0) "") = some cols ∧
      hasRequiredColumns cols = true) ∧
    ∀ j < i - i0, ∃ cols, parseCsvLine (lines.getD j "") = some cols ∧
      hasRequiredColumns cols = false := by
  induction lines with
  | nil => intro i0 i h; simp [detectHeaderLineIndexAux] at h
  | cons line rest ih =>
      intro i0 i h
      unfold detectHeaderLineIndexAux at h
      cases hp : parseCsvLine line with
      | none => rw [hp] at h; simp at h
      | some cols =>
          rw [hp] at h
          dsimp only at h
          by_cases hreq : hasRequiredColumns cols = true
          · rw [if_pos hreq] at h
            injection h with h1
            subst h1
            refine ⟨le_refl _, by simp, ⟨cols, by simpa using hp, hreq⟩, ?_⟩
            intro j hj
            omega
          · rw [if_neg hreq] at h
            obtain ⟨h1, h2, h3, h4⟩ := ih (i0 + 1) i h
            have hdiff : i - i0 = (i - (i0 + 1)) + 1 := by omega
            refine ⟨by omega, by simp; omega, ?_, ?_⟩
            · rw [hdiff]; simpa using h3
            · intro j hj
              cases j with
              | zero => exact ⟨cols, by simpa using hp, by simpa using hreq⟩
              | succ j2 =>
                  have hj2 : j2 < i - (i0 + 1) := by omega
                  simpa using h4 j2 hj2

lemma detectAux_err (lines : List String)
    (hall : ∀ line ∈ lines, ∀ cols, parseCsvLine line = some cols →
      hasRequiredColumns cols = false) :
    ∀ i0, ∃ e, detectHeaderLineIndexAux lines i0 = .error e := by
  induction lines with
  | nil => intro i0; exact ⟨noHeaderError, rfl⟩
  | cons line rest ih =>
      intro i0
      unfold detectHeaderLineIndexAux
      cases hp : parseCsvLine line with
      | none => exact ⟨"Unterminated quoted field", rfl⟩
      | some cols =>
          dsimp only
          rw [if_neg (by simp [hall line (by simp) cols hp])]
          exact ih (fun l hl c hc => hall l (by simp [hl]) c hc) (i0 + 1)

lemma mapGet_mapSet (m : List (String × String)) (k v k' : String) :
    mapGet (mapSet m k v) k' = if k' = k then some v else mapGet m k' := by
  induction m with
  | nil =>
      by_cases h : k' = k
      · simp [mapSet, mapGet, h]
      · simp [mapSet, mapGet, h, Ne.symm h]
  | cons e t ih =>
      by_cases he : e.1 = k
      · by_cases h : k' = k
        · simp [mapSet, mapGet, he, h]
        · simp [mapSet, mapGet, he, h, Ne.symm h]
      · by_cases hek : e.1 = k'
        · have h : ¬ k' = k := fun hh => he (hek.trans hh)
          simp [mapSet, mapGet, he, hek, h]
        · simp [mapSet, mapGet, he, hek, ih]

/-- Exact characterization of `buildMetadataMapAux`: the result maps `k` to
`v` iff some processed line qualifies with `(k, v)` and no later processed
line carries key `k` (last-wins overwrite), or no processed line carries `k`
at all and the accumulator already mapped `k` to `v`. -/
lemma buildAux_char (lines : List String) : ∀ m0 m,
    buildMetadataMapAux lines m0 = some m →
    ∀ k v, mapGet m k = some v ↔
      ((∃ l1 line l2, lines = l1 ++ line :: l2 ∧ QualLine line k v ∧
          ∀ line2 ∈ l2, ∀ v2, ¬ QualLine line2 k v2) ∨
        (mapGet m0 k = some v ∧ ∀ line ∈ lines, ∀ v2, ¬ QualLine line k v2)) := by
  induction lines with
  | nil =>
      intro m0 m h k v
      obtain rfl := Option.some.inj h
      constructor
      · intro hm
        exact Or.inr ⟨hm, by simp⟩
      · rintro (⟨l1, line, l2, heq, -, -⟩ | ⟨hm, -⟩)
        · exact absurd heq (by simp)
        · exact hm
  | cons l rest ih =>
      intro m0 m h k v
      unfold buildMetadataMapAux at h
      cases hp : parseCsvLine l with
      | none => rw [hp] at h; simp at h
      | some cols =>
          rw [hp] at h
          dsimp only at h
          by_cases hq : normalizeCell (cols.headD "") ≠ "" ∧
              jsTrim (String.intercalate "," cols.tail) ≠ ""
          · rw [if_pos hq] at h
            have hQl : ∀ k2 v2, QualLine l k2 v2 ↔
                (k2 = normalizeCell (cols.headD "") ∧
                  v2 = jsTrim (String.intercalate "," cols.tail)) := by
              intro k2 v2
              constructor
              · rintro ⟨cols2, hp2, hk, hv, -, -⟩
                obtain rfl := Option.some.inj (hp.symm.trans hp2)
                exact ⟨hk.symm, hv.symm⟩
              · rintro ⟨rfl, rfl⟩
                exact ⟨cols, hp, rfl, rfl, hq.1, hq.2⟩
            rw [ih _ _ h k v]
            constructor
            · rintro (⟨l1, line, l2, heq, hql, hnone⟩ | ⟨hm, hnone⟩)
              · exact Or.inl ⟨l :: l1, line, l2, by simp [heq], hql, hnone⟩
              · rw [mapGet_mapSet] at hm
                split_ifs at hm with hke
                · obtain rfl := Option.some.inj hm
                  exact Or.inl ⟨[], l, rest, rfl, (hQl k _).2 ⟨hke, rfl⟩, hnone⟩
                · refine Or.inr ⟨hm, ?_⟩
                  intro line hline v2 hql2
                  rcases List.mem_cons.1 hline with rfl | hline2
                  · exact hke ((hQl k v2).1 hql2).1
                  · exact hnone line hline2 v2 hql2
            · rintro (⟨l1, line, l2, heq, hql, hnone⟩ | ⟨hm, hnone⟩)
              · cases l1 with
                | nil =>
                    obtain ⟨rfl, rfl⟩ : l = line ∧ rest = l2 := by simpa using heq
                    obtain ⟨hke, hve⟩ := (hQl k v).1 hql
                    refine Or.inr ⟨?_, hnone⟩
                    rw [mapGet_mapSet, if_pos hke, hve]
                | cons l1h l1t =>
                    obtain ⟨rfl, hrest⟩ : l = l1h ∧ rest = l1t ++ line :: l2 := by
                      simpa using heq
                    exact Or.inl ⟨l1t, line, l2, hrest, hql, hnone⟩
              · have hknk : k ≠ normalizeCell (cols.headD "") := by
                  intro hk
                  exact hnone l (by simp) (jsTrim (String.intercalate "," cols.tail))
                    ((hQl k _).2 ⟨hk, rfl⟩)
                refine Or.inr ⟨?_, fun line hline v2 hql2 =>
                  hnone line (by simp [hline]) v2 hql2⟩
                rw [mapGet_mapSet, if_neg hknk]
                exact hm
          · rw [if_neg hq] at h
            have hNoQl : ∀ k2 v2, ¬ QualLine l k2 v2 := by
              rintro k2 v2 ⟨cols2, hp2, hk, hv, hk0, hv0⟩
              obtain rfl := Option.some.inj (hp.symm.trans hp2)
              exact hq ⟨fun hA => hk0 (hk.symm.trans hA),
                fun hA => hv0 (hv.symm.trans hA)⟩
            rw [ih _ _ h k v]
            constructor
            · rintro (⟨l1, line, l2, heq, hql, hnone⟩ | ⟨hm, hnone⟩)
              · exact Or.inl ⟨l :: l1, line, l2, by simp [heq], hql, hnone⟩
              · refine Or.inr ⟨hm, ?_⟩
                intro line hline v2 hql2
                rcases List.mem_cons.1 hline with rfl | hline2
                · exact hNoQl k v2 hql2
                · exact hnone line hline2 v2 hql2
            · rintro (⟨l1, line, l2, heq, hql, hnone⟩ | ⟨hm, hnone⟩)
              · cases l1 with
                | nil =>
                    obtain ⟨rfl, rfl⟩ : l = line ∧ rest = l2 := by simpa using heq
                    exact absurd hql (hNoQl k v)
                | cons l1h l1t =>
                    obtain ⟨rfl, hrest⟩ : l = l1h ∧ rest = l1t ++ line :: l2 := by
                      simpa using heq
                    exact Or.inl ⟨l1t, line, l2, hrest, hql, hnone⟩
              · exact Or.inr ⟨hm, fun line hline v2 hql2 =>
                  hnone line (by simp [hline]) v2 hql2⟩

/-! ## Header detection, metadata and the preview slice (C6, C4) -/

/-- C6 (counterexample): in the file `["Note", "Date,Description,Amount"]`
the header is detected at line 1, but the preceding line `"Note"` is NOT
captured in the metadata map (it parses as a lone key with an empty
remainder, and `buildMetadataMap` drops entries whose key or value is
empty), refuting "every line before that line is captured". -/
theorem header_detection_and_metadata_counterexample :
    detectHeaderLineIndex ["Note", "Date,Description,Amount"] = .ok 1 ∧
    buildMetadataMap ["Note"] = some [] ∧
    parseCsvLine "Note" = some ["Note"] ∧
    mapGet [] "note" = none := by
  decide

/-- C6 (amended): the detected header line is the first line (in order)
whose parsed, normalized field set is a superset of an accepted vocabulary;
if no line matches, detection fails with a fatal error; and the metadata map
is characterized exactly: it maps key `k` to value `v` iff some pre-header
line qualifies with `(k, v)` — it parses with non-empty normalized first
field `k` and non-empty rejoined-then-trimmed remainder `v` — and no later
pre-header line carries key `k`.  Hence each qualifying line is captured
with its value, a later same-key line overwrites an earlier one, and lines
with an empty key or empty value contribute nothing. -/
theorem header_detection_and_metadata_amended :
    (∀ lines i, detectHeaderLineIndex lines = .ok i →
      i < lines.length ∧
      (∃ cols, parseCsvLine (lines.getD i "") = some cols ∧
        hasRequiredColumns cols = true) ∧
      ∀ j < i, ∃ cols, parseCsvLine (lines.getD j "") = some cols ∧
        hasRequiredColumns cols = false) ∧
    (∀ lines : List String,
      (∀ line ∈ lines, ∀ cols, parseCsvLine line = some cols →
        hasRequiredColumns cols = false) →
      ∃ e, detectHeaderLineIndex lines = .error e) ∧
    (∀ lines m, buildMetadataMap lines = some m →
      ∀ k v, mapGet m k = some v ↔
        ∃ l1 line l2, lines = l1 ++ line :: l2 ∧ QualLine line k v ∧
          ∀ line2 ∈ l2, ∀ v2, ¬ QualLine line2 k v2) := by
  refine ⟨?_, ?_, ?_⟩
  · intro lines i h
    obtain ⟨-, h2, h3, h4⟩ := detectAux_ok lines 0 i h
    exact ⟨by simpa using h2, by simpa using h3, fun j hj => by
      simpa using h4 j (by simpa using hj)⟩
  · intro lines hall
    exact detectAux_err lines hall 0
  · intro lines m h k v
    have hch := buildAux_char lines [] m h k v
    constructor
    · intro hm
      rcases hch.1 hm with hL | ⟨hm0, -⟩
      · exact hL
      · simp [mapGet] at hm0
    · intro hL
      exact hch.2 (Or.inl hL)

/-- Witness for C6 (amended), at the concrete file
`["Account Number,123456789", "Date,Description,Amount"]` (header at line 1)
and its metadata block. -/
theorem header_detection_and_metadata_amended_witness :
    (1 < (["Account Number,123456789", "Date,Description,Amount"] : List String).length ∧
      (∃ cols, parseCsvLine ((["Account Number,123456789",
          "Date,Description,Amount"] : List String).getD 1 "") = some cols ∧
        hasRequiredColumns cols = true) ∧
      ∀ j < 1, ∃ cols, parseCsvLine ((["Account Number,123456789",
          "Date,Description,Amount"] : List String).getD j "") = some cols ∧
        hasRequiredColumns cols = false) ∧
    ∀ k v, mapGet [("account number", "123456789")] k = some v ↔
      ∃ l1 line l2, (["Account Number,123456789"] : List String) = l1 ++ line :: l2 ∧
        QualLine line k v ∧ ∀ line2 ∈ l2, ∀ v2, ¬ QualLine line2 k v2 :=
  ⟨header_detection_and_metadata_amended.1
      ["Account Number,123456789", "Date,Description,Amount"] 1 (by decide),
    header_detection_and_metadata_amended.2.2 ["Account Number,123456789"]
      [("account number", "123456789")] (by decide)⟩

/-- C4 (counterexample): `c4Csv` has 21 data rows after its header (line 0),
all valid, yet the preview retains 20 rows and `handleNormalize` over the
preview produces `normalized_count = 20`, `skipped_invalid_count = 0` — the
21st valid row is never canonicalized.  Running the same normalization over
all 21 parsed data rows would produce 21 transactions (last conjunct), so
the loss is caused by the slice, not by row validity. -/
theorem full_row_set_normalization_counterexample :
    (splitLines c4Csv).length = 22 ∧
    detectHeaderLineIndex (splitLines c4Csv) = .ok 0 ∧
    (parseCsvPreview c4Csv "boa.csv").map (fun p => p.rows.length) = .ok 20 ∧
    (parseCsvPreview c4Csv "boa.csv").map (fun p =>
      (handleNormalize (fun _ => "") .boa .checking p.headers
        "Date" "Amount" "Description" "" p.rows).map
        (fun out => (out.canonical.length, out.skipped_invalid_count))) =
      .ok (.ok (20, 0)) ∧
    (((splitLines c4Csv).drop 1).mapM parseCsvLine).map (fun dataRows =>
      (handleNormalize (fun _ => "") .boa .checking ["Date", "Description", "Amount"]
        "Date" "Amount" "Description" "" dataRows).map
        (fun out => (out.canonical.length, out.skipped_invalid_count))) =
      some (.ok (21, 0)) := by
  decide

/-- C4 (amended): the normalization step operates over exactly the preview
slice: a successful `parseCsvPreview` retains `min(#dataRows, 20)` rows, and
`handleNormalize` — the only normalization path — consumes `preview.rows`,
conserving exactly that many rows; data rows beyond the first 20 are not
normalized. -/
theorem normalization_preview_slice_amended :
    ∀ csvText filename p, parseCsvPreview csvText filename = .ok p →
      (∃ headerLineIndex dataRows,
        detectHeaderLineIndex (splitLines csvText) = .ok headerLineIndex ∧
        ((splitLines csvText).drop (headerLineIndex + 1)).mapM parseCsvLine =
          some dataRows ∧
        p.rows.length = min dataRows.length 20) ∧
      ∀ (hash : String → String) (institution : Institution)
        (accountType : AccountType) (mD mA mDe mC : String) (out : NormalizeOutcome),
        handleNormalize hash institution accountType p.headers mD mA mDe mC
          p.rows = .ok out →
        out.canonical.length + out.skipped_invalid_count = p.rows.length := by
  intro csvText filename p h
  refine ⟨?_, fun hash institution accountType mD mA mDe mC out hn =>
    handleNormalize_ok_conservation hash institution accountType p.headers
      mD mA mDe mC p.rows out hn⟩
  simp only [parseCsvPreview] at h
  split_ifs at h
  cases hdet : detectHeaderLineIndex (splitLines csvText) with
  | error e => rw [hdet] at h; simp at h
  | ok hi =>
      rw [hdet] at h
      dsimp only at h
      cases hraw : parseCsvLine ((splitLines csvText).getD hi "") with
      | none => rw [hraw] at h; simp at h
      | some rawHeaders =>
          rw [hraw] at h
          dsimp only at h
          cases hdr : ((splitLines csvText).drop (hi + 1)).mapM parseCsvLine with
          | none => rw [hdr] at h; simp at h
          | some dataRows =>
              rw [hdr] at h
              dsimp only at h
              cases hmeta : buildMetadataMap ((splitLines csvText).take hi) with
              | none => rw [hmeta] at h; simp at h
              | some metadata =>
                  rw [hmeta] at h
                  dsimp only at h
                  refine ⟨hi, dataRows, rfl, hdr, ?_⟩
                  injection h with h2
                  rw [← h2]
                  simp [List.length_take, Nat.min_comm]

/-- Witness for C4 (amended), at the concrete two-data-row file. -/
theorem normalization_preview_slice_amended_witness :
    (∃ headerLineIndex dataRows,
      detectHeaderLineIndex (splitLines c4SmallCsv) = .ok headerLineIndex ∧
      ((splitLines c4SmallCsv).drop (headerLineIndex + 1)).mapM parseCsvLine =
        some dataRows ∧
      c4Preview.rows.length = min dataRows.length 20) ∧
    ∀ (hash : String → String) (institution : Institution)
      (accountType : AccountType) (mD mA mDe mC : String) (out : NormalizeOutcome),
      handleNormalize hash institution accountType c4Preview.headers mD mA mDe mC
        c4Preview.rows = .ok out →
      out.canonical.length + out.skipped_invalid_count = c4Preview.rows.length :=
  normalization_preview_slice_amended c4SmallCsv "boa.csv" c4Preview (by decide)

/-! ## Renderings of `runParserInlineTests` of `route.ts`

The source ships module-load self-tests; the embedding reproduces their
expectations, evidencing fidelity of the CSV model. -/

lemma inline_test_bofa :
    (parseCsvPreview bofaLikeCsv "boa-checking.csv").map (fun p =>
      (p.headers.getD 0 "", p.headers.getD 1 "", (p.rows.getD 0 []).getD 1 "",
        p.accountType, p.accountId)) =
    .ok ("Date", "Description", "COFFEE SHOP", .checking, "boa-checking-6789") := by
  decide

lemma inline_test_credit_card :
    (parseCsvPreview creditCardCsv "boa-credit.csv").map (fun p => p.accountType) =
    .ok .credit_card := by
  decide

lemma inline_test_posted_date :
    (parseCsvPreview postedDateCsv "chase.csv").map (fun p =>
      (p.headers.getD 0 "", p.headers.getD 1 "", p.institution)) =
    .ok ("Posted Date", "Payee", .chase) := by
  decide

lemma inline_test_no_header :
    parseCsvPreview "foo,bar\n1,2" "bad.csv" = .error noHeaderError := by
  decide
